import Mathlib

/-!
# Verification of the metabench score-estimation core

Shallow embedding, over exact rationals, of the numerical core of the
repository:

* `src/lib/autograd.js` — the reverse-mode automatic-differentiation engine
  (`Computation`, `computeGradients`, `computeOperandGradients`, `zerograd`);
* `src/unnamed/part_013` (the weighed-bivariate module) — table indexing,
  pairwise regression estimators, bivariate predictions and variances, the
  inverse-variance imputation combiner (`computeAllBenchmarks`,
  `estimateMissingBenchmarks`);
* `src/lib/score-prediction.js` — Gaussian elimination with partial
  pivoting (`gaussianElimination`), matrix inversion (`invertMatrix`) and
  the multivariate trainer (`trainModelForBenchmark`);
* `src/lib/score-prediction-multivariate-gradient-descent.js` — the
  backtracking-line-search optimizer loop (`performGradientDescent`,
  `gradientDescent`);
* `src/lib/score-prediction-consolidated-bivariate-gradient-descent.js` —
  the linearly-decayed step-size loop.

JavaScript numbers are modelled as `ℚ` (exact arithmetic; the float
literals `1e-50`, `1e-15`, `1e-10`, `0.1`, `1e-6` become the exact decimal
rationals).  The transcendental primitives `Math.sqrt`, `Math.pow` and
`Math.log` have no rational realisation, so each embedded function that
calls them takes the primitive as an explicit function parameter
(`sqrtFn`, `powFn`, `logFn`); no theorem below depends on properties of
these parameters beyond what it states.  Fallible JS paths (returning
`null`) are modelled with `Option`.
-/

namespace Metabench

/-! ## Association-list helpers

JS objects iterated with `Object.entries` are modelled as association
lists `List (String × β)`; `obj[key]` is `List.lookup`, which returns the
first binding, exactly as a JS object has a single binding per key. -/

/-- `lookup` on a list built by tabulating distinct keys: the value is the
tabulated function at the key. -/
theorem lookup_map_self {β : Type _} (f : String → β) :
    ∀ (ks : List String) (k : String),
      List.lookup k (ks.map fun b => (b, f b)) =
        if k ∈ ks then some (f k) else none := by
  intro ks
  induction ks with
  | nil => intro k; simp
  | cons a t ih =>
    intro k
    by_cases h : k = a
    · subst h; simp [List.lookup]
    · have hb : (k == a) = false := beq_eq_false_iff_ne.2 h
      simp only [List.map_cons, List.lookup, hb, List.mem_cons]
      simp [ih k, h]

/-- `lookup` after transforming the values of an association list. -/
theorem lookup_map_entries {β γ : Type _} (g : String → β → γ) :
    ∀ (l : List (String × β)) (k : String),
      List.lookup k (l.map fun e => (e.1, g e.1 e.2)) =
        (List.lookup k l).map (g k) := by
  intro l
  induction l with
  | nil => intro k; simp
  | cons e t ih =>
    intro k
    by_cases h : k = e.1
    · subst h; simp [List.lookup]
    · have hb : (k == e.1) = false := beq_eq_false_iff_ne.2 h
      simp only [List.map_cons, List.lookup, hb]
      exact ih k

/-- In an association list with `Nodup` keys, a member entry is what
`lookup` returns for its key. -/
theorem lookup_eq_of_mem_of_nodup {β : Type _} :
    ∀ (l : List (String × β)), (l.map Prod.fst).Nodup →
      ∀ (k : String) (v : β), (k, v) ∈ l → List.lookup k l = some v := by
  intro l
  induction l with
  | nil => intro _ k v h; simp at h
  | cons e t ih =>
    intro hnd k v hmem
    simp only [List.map_cons, List.nodup_cons] at hnd
    rcases List.mem_cons.1 hmem with h | h
    · cases h; simp [List.lookup]
    · have hk : k ≠ e.1 := by
        rintro rfl
        exact hnd.1 (List.mem_map.2 ⟨(e.1, v), h, rfl⟩)
      have hb : (k == e.1) = false := beq_eq_false_iff_ne.2 hk
      simp only [List.lookup, hb]
      exact ih hnd.2 k v h

/-! ## Autograd engine — `src/lib/autograd.js`

A `Computation` object graph is embedded as an arena (`AGGraph`): nodes
are stored in creation order and refer to their operands by index (JS
object references become indices; a node's operands always precede it, as
the constructors compute `value` eagerly from existing nodes).  The
mutable `gradient` field of each node becomes one entry of an explicit
gradient state `List ℚ`, threaded through the backward pass.  The
recursive methods `zerograd` and `computeOperandGradients` take a fuel
argument; fuel `g.length` over-approximates the recursion depth for any
arena graph (operand indices strictly decrease along a path), so the
cut-off branch is never taken on graphs built by the constructors. -/

/-- `const operations = { variable: 0, constant: 1, add: 2, multiply: 3, power: 4 }`. -/
inductive AGOp
  | «variable»
  | «constant»
  | add
  | multiply
  | power
  deriving DecidableEq

/-- One `Computation` node: `{value, operation, operands}` (the `gradient`
field lives in the separate gradient state). -/
structure AGNode where
  value : ℚ
  operation : AGOp
  operands : List Nat
  deriving DecidableEq

abbrev AGGraph := List AGNode

namespace AGGraph

/-- `node.value` for the node at index `i` (0 for an absent index; absent
indices are never produced by the constructors). -/
def valueAt (g : AGGraph) (i : Nat) : ℚ :=
  ((g.get? i).map AGNode.value).getD 0

/-- `node.operands` for the node at index `i`. -/
def operandsAt (g : AGGraph) (i : Nat) : List Nat :=
  ((g.get? i).map AGNode.operands).getD []

/-- `node.operation` for the node at index `i`. -/
def operationAt (g : AGGraph) (i : Nat) : AGOp :=
  ((g.get? i).map AGNode.operation).getD .«constant»

end AGGraph

namespace Computation

/-- `new Variable(value)`: append a leaf-variable node, return its index. -/
def mkVariable (g : AGGraph) (value : ℚ) : AGGraph × Nat :=
  (g ++ [⟨value, .«variable», []⟩], g.length)

/-- `new Constant(value)`: append a leaf-constant node, return its index. -/
def mkConstant (g : AGGraph) (value : ℚ) : AGGraph × Nat :=
  (g ++ [⟨value, .«constant», []⟩], g.length)

/-- `this.add(operand)`: value is computed eagerly at construction. -/
def add (g : AGGraph) (i j : Nat) : AGGraph × Nat :=
  (g ++ [⟨g.valueAt i + g.valueAt j, .add, [i, j]⟩], g.length)

/-- `this.multiply(operand)`. -/
def multiply (g : AGGraph) (i j : Nat) : AGGraph × Nat :=
  (g ++ [⟨g.valueAt i * g.valueAt j, .multiply, [i, j]⟩], g.length)

/-- `this.power(exponent)`: `Math.pow` is the explicit parameter `powFn`. -/
def power (powFn : ℚ → ℚ → ℚ) (g : AGGraph) (i j : Nat) : AGGraph × Nat :=
  (g ++ [⟨powFn (g.valueAt i) (g.valueAt j), .power, [i, j]⟩], g.length)

/-- `zerograd()`: recursively zero all gradients in the subgraph rooted at
the given node. -/
def zerograd (g : AGGraph) : Nat → List ℚ → Nat → List ℚ
  | 0, grads, _ => grads
  | fuel + 1, grads, id =>
    let grads := grads.set id 0
    (g.operandsAt id).foldl (fun gr op => zerograd g fuel gr op) grads

/-- The gradient contribution pushed from node `id` to its operand in
position `i` (index `opIdx`), per the `switch (this.operation)` of
`computeOperandGradients`.  For `power`, the source reads
`this.operands[1].value` for the exponent and — in the exponent branch —
`operand.value` as both the base of `Math.pow` and the argument of
`Math.log`.  (The `throw` for a non-binary power node is not modelled:
every power node built by `power` is binary.) -/
def operandContribution (powFn : ℚ → ℚ → ℚ) (logFn : ℚ → ℚ) (g : AGGraph)
    (grads : List ℚ) (id : Nat) (i : Nat) (opIdx : Nat) : ℚ :=
  let thisGradient := grads.getD id 0
  match g.operationAt id with
  | .«variable» | .«constant» => thisGradient
  | .add => thisGradient
  | .multiply =>
    let product := (g.operandsAt id).enum.foldl
      (fun p jop => if i ≠ jop.1 then p * g.valueAt jop.2 else p) 1
    thisGradient * product
  | .power =>
    let expVal := g.valueAt ((g.operandsAt id).getD 1 0)
    if i = 0 then
      thisGradient * expVal * powFn (g.valueAt opIdx) (expVal - 1)
    else
      thisGradient * powFn (g.valueAt opIdx) expVal * logFn (g.valueAt opIdx)

/-- `computeOperandGradients()`: for each operand in order, push the local
contribution into its gradient, then recurse into it immediately. -/
def computeOperandGradients (powFn : ℚ → ℚ → ℚ) (logFn : ℚ → ℚ)
    (g : AGGraph) : Nat → List ℚ → Nat → List ℚ
  | 0, grads, _ => grads
  | fuel + 1, grads, id =>
    (g.operandsAt id).enum.foldl
      (fun grads iop =>
        let contribution := operandContribution powFn logFn g grads id iop.1 iop.2
        let grads := grads.set iop.2 (grads.getD iop.2 0 + contribution)
        computeOperandGradients powFn logFn g fuel grads iop.2)
      grads

/-- `computeGradients()`: zero every reachable gradient, set the root
gradient to 1, then propagate.  `grads` is the incoming gradient state (a
fresh graph has all gradients 0.0). -/
def computeGradients (powFn : ℚ → ℚ → ℚ) (logFn : ℚ → ℚ)
    (g : AGGraph) (grads : List ℚ) (root : Nat) : List ℚ :=
  let grads := zerograd g g.length grads root
  let grads := grads.set root 1
  computeOperandGradients powFn logFn g g.length grads root

end Computation

/-! ### Concrete graphs for the backward-pass claims -/

/-- The graph `root = s + s` where `s = x · 1` is one shared *internal*
node (the same `Computation` object used as both operands of the `add`),
parametric in the leaf value `t`.  Indices: `x = 0`, `1 = 1`, `s = 2`,
`root = 3`; `root.value = t·1 + t·1`. -/
def sharedNodeGraph (t : ℚ) : AGGraph :=
  let p := Computation.mkVariable [] t
  let q := Computation.mkConstant p.1 1
  let s := Computation.multiply q.1 p.2 q.2
  (Computation.add s.1 s.2 s.2).1

/-- The graph `root = base ^ exponent` with `base = Variable(2)` and
`exponent = Constant(3)`.  Indices: `base = 0`, `exponent = 1`,
`root = 2`. -/
def powerNodeGraph (powFn : ℚ → ℚ → ℚ) : AGGraph :=
  let b := Computation.mkVariable [] 2
  let e := Computation.mkConstant b.1 3
  (Computation.power powFn e.1 b.2 e.2).1

/-- C1.  The root of `sharedNodeGraph t` has value `2·t`, so
∂(root)/∂x = 2 at every `t`; yet after `computeGradients()` on the graph
at `t = 3` the leaf `x` holds gradient 3, not 2: when a shared node is
internal, `computeOperandGradients` re-propagates the *accumulated*
gradient on each visit instead of the increment, overcounting every node
below the shared one.  (The power primitives are irrelevant here — the
graph has no power node — and are instantiated with the zero functions.) -/
theorem computeGradients_overcounts_below_shared_internal_node :
    (∀ t : ℚ, (sharedNodeGraph t).valueAt 3 = 2 * t) ∧
    (Computation.computeGradients (fun _ _ => 0) (fun _ => 0)
        (sharedNodeGraph 3) (List.replicate 4 0) 3).getD 0 0 = 3 := by
  constructor
  · intro t
    simp only [sharedNodeGraph, Computation.mkVariable, Computation.mkConstant,
      Computation.multiply, Computation.add, AGGraph.valueAt, List.nil_append,
      List.cons_append, List.length, List.get?]
    norm_num
    ring
  · simp only [sharedNodeGraph, Computation.mkVariable, Computation.mkConstant,
      Computation.multiply, Computation.add, Computation.computeGradients,
      Computation.zerograd, Computation.computeOperandGradients,
      Computation.operandContribution, AGGraph.valueAt, AGGraph.operandsAt,
      AGGraph.operationAt, List.enum, List.enumFrom, List.set,
      List.getD_cons_zero, List.getD_cons_succ,
      List.replicate, List.get?, List.foldl, List.length]
    norm_num

/-- C9.  Backward pass through a power node with `base = 2`,
`exponent = 3` (root gradient 1): the base operand receives
`exponent · base^(exponent−1)` as the claim states, but the exponent
operand receives `pow(exponent, exponent) · log(exponent)` — the source
reads `operand.value` (the exponent) where its own comment
`d(a^b)/db = a^b * ln(a)` requires the base — instead of the claimed
`value · ln(base) = pow(2,3) · log 2`. -/
theorem power_exponent_gradient_misreads_base :
    ∀ (powFn : ℚ → ℚ → ℚ) (logFn : ℚ → ℚ),
      (powerNodeGraph powFn).valueAt 2 = powFn 2 3 ∧
      (Computation.computeGradients powFn logFn (powerNodeGraph powFn)
          (List.replicate 3 0) 2).getD 0 0 = 3 * powFn 2 2 ∧
      (Computation.computeGradients powFn logFn (powerNodeGraph powFn)
          (List.replicate 3 0) 2).getD 1 0 = powFn 3 3 * logFn 3 := by
  intro powFn logFn
  refine ⟨?_, ?_, ?_⟩ <;>
    · simp only [powerNodeGraph, Computation.mkVariable, Computation.mkConstant,
        Computation.power, Computation.computeGradients, Computation.zerograd,
        Computation.computeOperandGradients, Computation.operandContribution,
        AGGraph.valueAt, AGGraph.operandsAt, AGGraph.operationAt,
        List.enum, List.enumFrom, List.set, List.getD_cons_zero,
        List.getD_cons_succ, List.replicate, List.get?, List.foldl,
        List.length, List.nil_append, List.cons_append]
      norm_num

/-! ## Gradient-descent optimizer —
`src/lib/score-prediction-multivariate-gradient-descent.js`

The optimizer state is the list of values of the trainable `Variable`
leaves.  Building the loss graph and running the backward pass are
abstracted into the function parameters `lossFn` (the value that
`computeMultivariateLoss` assigns to the current leaves) and `gradFn`
(the leaf gradients that `loss.computeGradients()` produces); the loop
logic itself — `performGradientDescent`, lines 121–159 — is embedded
verbatim.  In exact arithmetic no loss value is NaN, so the
`Number.isNaN` tests are identically false (as the line-141 test
`Number.isNaN(newLoss)`, applied to an object rather than a number,
already is in the source). -/

/-- `gradientDescent(variables, stepSize)` (multivariate file, lines
296–311): normalize the step by the L2 norm of the gradient, skipping the
update entirely when the norm is below `1e-10`. -/
def gradientDescent (sqrtFn : ℚ → ℚ) (vars grads : List ℚ) (stepSize : ℚ) :
    List ℚ :=
  let norm := sqrtFn ((grads.map fun g => g * g).sum)
  if norm < 1 / 10 ^ 10 then vars
  else
    let lr := stepSize / norm
    (vars.zip grads).map fun p => p.1 - lr * p.2

/-- The backtracking inner loop of `performGradientDescent` (lines
141–153): while `newLoss.value >= loss.value` and fewer than 100
attempts, apply the step to the copied variables (the copy always equals
the committed variables when a step is tried, because a failed try
restores it); on failure halve `stepSize`.  Returns the final `newLoss`
value and step size. -/
def lineSearch (lossFn : List ℚ → ℚ) (sqrtFn : ℚ → ℚ) (loss : ℚ)
    (vars grads : List ℚ) : Nat → ℚ → ℚ → ℚ × ℚ
  | 0, newLoss, stepSize => (newLoss, stepSize)
  | fuel + 1, newLoss, stepSize =>
    if newLoss < loss then (newLoss, stepSize)
    else
      let nl := lossFn (gradientDescent sqrtFn vars grads stepSize)
      if loss ≤ nl then
        lineSearch lossFn sqrtFn loss vars grads fuel nl (stepSize / 2)
      else
        lineSearch lossFn sqrtFn loss vars grads fuel nl stepSize

/-- The optimizer state: current `Variable` values and the persistent
`stepSize` (initialized to 1 before the outer loop). -/
structure GDState where
  vars : List ℚ
  stepSize : ℚ
  deriving DecidableEq

/-- One outer iteration of `performGradientDescent` (lines 128–157):
compute loss and gradients, run the line search on the copies, and either
`break` (`none`) when no improving step was found, or commit by applying
`gradientDescent(variables, stepSize)` to the real variables. -/
def outerStep (lossFn : List ℚ → ℚ) (gradFn : List ℚ → List ℚ)
    (sqrtFn : ℚ → ℚ) (st : GDState) : Option GDState :=
  let loss := lossFn st.vars
  let grads := gradFn st.vars
  let r := lineSearch lossFn sqrtFn loss st.vars grads 100 loss st.stepSize
  if loss ≤ r.1 then none
  else some ⟨gradientDescent sqrtFn st.vars grads r.2, r.2⟩

/-- The outer loop of `performGradientDescent` as a trace: the states at
entry of each outer iteration, the initial state first; the loop stops
early when the line search exhausts its 100 attempts without
improvement. -/
def gdRun (lossFn : List ℚ → ℚ) (gradFn : List ℚ → List ℚ)
    (sqrtFn : ℚ → ℚ) : Nat → GDState → List GDState
  | 0, st => [st]
  | n + 1, st =>
    st ::
      (match outerStep lossFn gradFn sqrtFn st with
        | none => []
        | some st' => gdRun lossFn gradFn sqrtFn n st')

/-- `lineSearch` invariant: whenever it reports an improved loss, that
loss is the loss of one step at the returned step size applied to the
committed variables. -/
theorem lineSearch_improved_eq (lossFn : List ℚ → ℚ) (sqrtFn : ℚ → ℚ)
    (loss : ℚ) (vars grads : List ℚ) :
    ∀ (fuel : Nat) (newLoss stepSize : ℚ),
      (newLoss < loss →
        newLoss = lossFn (gradientDescent sqrtFn vars grads stepSize)) →
      (lineSearch lossFn sqrtFn loss vars grads fuel newLoss stepSize).1 <
          loss →
        (lineSearch lossFn sqrtFn loss vars grads fuel newLoss stepSize).1 =
          lossFn (gradientDescent sqrtFn vars grads
            (lineSearch lossFn sqrtFn loss vars grads fuel newLoss
              stepSize).2) := by
  intro fuel
  induction fuel with
  | zero => intro newLoss stepSize h; exact fun hlt => h hlt
  | succ n ih =>
    intro newLoss stepSize h
    simp only [lineSearch]
    by_cases h1 : newLoss < loss
    · simpa [h1] using h
    · simp only [if_neg h1]
      by_cases h2 : loss ≤ lossFn (gradientDescent sqrtFn vars grads stepSize)
      · simp only [if_pos h2]
        exact ih _ _ (fun hlt => absurd hlt (not_lt.2 h2))
      · simp only [if_neg h2]
        exact ih _ _ (fun _ => rfl)

/-- A committed outer step strictly decreases the loss. -/
theorem outerStep_loss_lt (lossFn : List ℚ → ℚ) (gradFn : List ℚ → List ℚ)
    (sqrtFn : ℚ → ℚ) (st st' : GDState)
    (h : outerStep lossFn gradFn sqrtFn st = some st') :
    lossFn st'.vars < lossFn st.vars := by
  unfold outerStep at h
  set loss := lossFn st.vars with hloss
  set grads := gradFn st.vars with hgrads
  set r := lineSearch lossFn sqrtFn loss st.vars grads 100 loss st.stepSize
    with hr
  by_cases hc : loss ≤ r.1
  · simp [hc] at h
  · simp only [if_neg hc] at h
    have hlt : r.1 < loss := not_le.1 hc
    have heq :
        r.1 = lossFn (gradientDescent sqrtFn st.vars grads r.2) :=
      lineSearch_improved_eq lossFn sqrtFn loss st.vars grads 100 loss
        st.stepSize (fun hl => absurd hl (lt_irrefl loss)) hlt
    have hvars : st'.vars = gradientDescent sqrtFn st.vars grads r.2 := by
      cases h; rfl
    rw [hvars, ← heq]
    exact hlt

/-- C8.  Loss monotonicity of the optimizer: along any run of
`performGradientDescent`'s outer loop — for every loss function, gradient
function, square-root primitive, iteration budget and initial state — the
loss values at the successively committed states form a strictly
decreasing chain (in particular the loss is non-increasing across
successive accepted steps); a failed 100-attempt line search ends the run
with the last committed state. -/
theorem performGradientDescent_loss_strictly_decreases
    (lossFn : List ℚ → ℚ) (gradFn : List ℚ → List ℚ) (sqrtFn : ℚ → ℚ)
    (iterations : Nat) (st : GDState) :
    ((gdRun lossFn gradFn sqrtFn iterations st).map
        fun s => lossFn s.vars).Chain' (· > ·) := by
  induction iterations generalizing st with
  | zero => simp [gdRun]
  | succ n ih =>
    rw [gdRun]
    rcases hstep : outerStep lossFn gradFn sqrtFn st with _ | st'
    · simp
    · simp only [List.map_cons]
      rw [List.chain'_cons']
      refine ⟨?_, ih st'⟩
      intro y hy
      have hhead : (gdRun lossFn gradFn sqrtFn n st').head? = some st' := by
        cases n <;> rfl
      rw [List.head?_map, hhead] at hy
      cases hy
      exact outerStep_loss_lt lossFn gradFn sqrtFn st st' hstep

/-! ### Step-size schedules —
`score-prediction-consolidated-bivariate-gradient-descent.js` lines 64–72
versus the multivariate optimizer's persistent halved step size -/

/-- The consolidated-bivariate optimizer's per-iteration step size
(lines 64–67): `[maxStepSize, minStepSize] = [0.1, 1e-6]`,
`progress = i / iterations`,
`stepSize = maxStepSize * (1 - progress) + minStepSize * progress`. -/
def consolidatedStepSize (iterations i : Nat) : ℚ :=
  let progress : ℚ := (i : ℚ) / (iterations : ℚ)
  (1 / 10) * (1 - progress) + (1 / 10 ^ 6) * progress

/-- The consolidated file's own `gradientDescent` (no small-norm guard;
`lr = stepSize / norm`). -/
def gradientDescentConsolidated (sqrtFn : ℚ → ℚ) (vars grads : List ℚ)
    (stepSize : ℚ) : List ℚ :=
  let norm := sqrtFn ((grads.map fun g => g * g).sum)
  let lr := stepSize / norm
  (vars.zip grads).map fun p => p.1 - lr * p.2

/-- The consolidated optimizer's outer loop (lines 65–79): one
unconditional gradient step per iteration at the linearly decayed step
size (gradients of the rebuilt loss graph are abstracted as `gradFn`). -/
def consolidatedRun (gradFn : List ℚ → List ℚ) (sqrtFn : ℚ → ℚ)
    (iterations : Nat) (vars : List ℚ) : List ℚ :=
  (List.range iterations).foldl
    (fun vars i =>
      gradientDescentConsolidated sqrtFn vars (gradFn vars)
        (consolidatedStepSize iterations i))
    vars

/-- A concrete loss landscape on one variable, used to exercise the
multivariate optimizer loop on inputs where the line search halves the
step during the second and third iterations. -/
def lossC10 : List ℚ → ℚ := fun v =>
  match v with
  | [x] =>
    if x = 10 then 10
    else if x = 11 then 5
    else if x = 12 then 50
    else if x = 23 / 2 then 4
    else if x = 47 / 4 then 3
    else 100
  | _ => 0

/-- A constant gradient of −1 for the single variable (its L2 norm is 1,
so `sqrtFn = id` is exact on every norm the run computes); each step of
size `s` moves `x` to `x + s`. -/
def gradC10 : List ℚ → List ℚ := fun _ => [-1]

/-- The `lineSearch` only ever keeps or halves the step size, at most 100
times. -/
theorem lineSearch_stepSize_halved (lossFn : List ℚ → ℚ) (sqrtFn : ℚ → ℚ)
    (loss : ℚ) (vars grads : List ℚ) :
    ∀ (fuel : Nat) (newLoss stepSize : ℚ),
      ∃ k : Nat, k ≤ fuel ∧
        (lineSearch lossFn sqrtFn loss vars grads fuel newLoss
            stepSize).2 = stepSize / 2 ^ k := by
  intro fuel
  induction fuel with
  | zero => intro newLoss stepSize; exact ⟨0, le_refl 0, by simp [lineSearch]⟩
  | succ n ih =>
    intro newLoss stepSize
    simp only [lineSearch]
    by_cases h1 : newLoss < loss
    · exact ⟨0, Nat.zero_le _, by simp [h1]⟩
    · simp only [if_neg h1]
      by_cases h2 : loss ≤ lossFn (gradientDescent sqrtFn vars grads stepSize)
      · simp only [if_pos h2]
        obtain ⟨k, hk, he⟩ := ih (lossFn (gradientDescent sqrtFn vars grads
          stepSize)) (stepSize / 2)
        exact ⟨k + 1, Nat.succ_le_succ hk, by
          rw [he]; rw [pow_succ]; ring⟩
      · simp only [if_neg h2]
        obtain ⟨k, hk, he⟩ := ih (lossFn (gradientDescent sqrtFn vars grads
          stepSize)) stepSize
        exact ⟨k, Nat.le_succ_of_le hk, he⟩

/-- C10 (amended).  The consolidated-bivariate optimizer's step size is
linearly decayed over the run: it starts at the maximum bound `0.1`,
reaches the minimum bound `1e-6` at the end of the run, and is
non-increasing in the iteration index.  The multivariate optimizer (the
one with the backtracking line search) has no such schedule: its starting
step size persists from iteration to iteration, each committed iteration
keeping or halving it (at most 100 halvings). -/
theorem stepSize_schedules :
    (∀ N : Nat, consolidatedStepSize N 0 = 1 / 10) ∧
    (∀ N : Nat, 0 < N → consolidatedStepSize N N = 1 / 10 ^ 6) ∧
    (∀ N i j : Nat, i ≤ j → 0 < N →
      consolidatedStepSize N j ≤ consolidatedStepSize N i) ∧
    (∀ (lossFn : List ℚ → ℚ) (gradFn : List ℚ → List ℚ) (sqrtFn : ℚ → ℚ)
       (st st' : GDState), outerStep lossFn gradFn sqrtFn st = some st' →
         ∃ k : Nat, k ≤ 100 ∧ st'.stepSize = st.stepSize / 2 ^ k) := by
  refine ⟨?_, ?_, ?_, ?_⟩
  · intro N; simp [consolidatedStepSize]
  · intro N hN
    have h : ((N : ℚ)) ≠ 0 := Nat.cast_ne_zero.2 hN.ne'
    simp [consolidatedStepSize, div_self h]
  · intro N i j hij hN
    have hN' : (0 : ℚ) < (N : ℚ) := by exact_mod_cast hN
    have hdiv : (i : ℚ) / N ≤ (j : ℚ) / N :=
      (div_le_div_iff_of_pos_right hN').2 (by exact_mod_cast hij)
    simp only [consolidatedStepSize]
    linarith
  · intro lossFn gradFn sqrtFn st st' h
    unfold outerStep at h
    by_cases hc :
        lossFn st.vars ≤
          (lineSearch lossFn sqrtFn (lossFn st.vars) st.vars
            (gradFn st.vars) 100 (lossFn st.vars) st.stepSize).1
    · simp [hc] at h
    · simp only [if_neg hc] at h
      obtain ⟨k, hk, he⟩ := lineSearch_stepSize_halved lossFn sqrtFn
        (lossFn st.vars) st.vars (gradFn st.vars) 100 (lossFn st.vars)
        st.stepSize
      refine ⟨k, hk, ?_⟩
      cases h
      simpa using he

/-- Committed outer step 1 of the concrete run: from `x = 10` with step
size 1, the first try `x = 11` improves (10 → 5); no halving. -/
theorem outerStepC10_0 :
    outerStep lossC10 gradC10 id ⟨[10], 1⟩ = some ⟨[11], 1⟩ := by
  have hL : lineSearch lossC10 id 10 [10] [-1] 100 10 1 = (5, 1) := by
    rw [lineSearch]
    norm_num [gradientDescent, lossC10]
    rw [lineSearch]
    norm_num
  simp only [outerStep, gradC10]
  norm_num [lossC10, hL, gradientDescent]

/-- Committed outer step 2: from `x = 11` with step size 1, the try
`x = 12` worsens (5 → 50), the step is halved, and `x = 23/2` improves
(5 → 4); the halved step size ½ persists in the state. -/
theorem outerStepC10_1 :
    outerStep lossC10 gradC10 id ⟨[11], 1⟩ = some ⟨[23 / 2], 1 / 2⟩ := by
  have hL : lineSearch lossC10 id 5 [11] [-1] 100 5 1 = (4, 1 / 2) := by
    rw [lineSearch]
    norm_num [gradientDescent, lossC10]
    rw [lineSearch]
    norm_num [gradientDescent, lossC10]
    rw [lineSearch]
    norm_num
  simp only [outerStep, gradC10]
  norm_num [lossC10, hL, gradientDescent]

/-- Committed outer step 3: from `x = 23/2` the line search starts at the
persisted step size ½ (not at any scheduled value), fails once at
`x = 12`, and succeeds at `x = 47/4` with step size ¼. -/
theorem outerStepC10_2 :
    outerStep lossC10 gradC10 id ⟨[23 / 2], 1 / 2⟩ =
      some ⟨[47 / 4], 1 / 4⟩ := by
  have hL : lineSearch lossC10 id 4 [23 / 2] [-1] 100 4 (1 / 2) =
      (3, 1 / 4) := by
    rw [lineSearch]
    norm_num [gradientDescent, lossC10]
    rw [lineSearch]
    norm_num [gradientDescent, lossC10]
    rw [lineSearch]
    norm_num
  simp only [outerStep, gradC10]
  norm_num [lossC10, hL, gradientDescent]

/-- C10 counterexample.  A schedule of the claimed form
`stepSize_i = max·(1 − i/N) + min·(i/N)` is affine in `i`, so the
starting step sizes of three consecutive outer iterations would satisfy
`s₀ + s₂ = 2·s₁` for every choice of the `max` and `min` bounds.  A run
of `N = 3` iterations of the multivariate optimizer (the one with the
backtracking line search) on the concrete landscape `lossC10` has
starting step sizes 1, 1, ½: the step size starts at 1 and is only
changed by line-search halvings, and `1 + 1/2 ≠ 2·1`. -/
theorem multivariate_starting_stepSize_not_affine :
    (gdRun lossC10 gradC10 id 3 ⟨[10], 1⟩).map GDState.stepSize =
        [1, 1, 1 / 2, 1 / 4] ∧
      ((gdRun lossC10 gradC10 id 3 ⟨[10], 1⟩).map GDState.stepSize).getD 0 0 +
          ((gdRun lossC10 gradC10 id 3 ⟨[10], 1⟩).map
            GDState.stepSize).getD 2 0 ≠
        2 *
          ((gdRun lossC10 gradC10 id 3 ⟨[10], 1⟩).map
            GDState.stepSize).getD 1 0 := by
  have ht : (gdRun lossC10 gradC10 id 3 ⟨[10], 1⟩).map GDState.stepSize =
      [1, 1, 1 / 2, 1 / 4] := by
    simp only [gdRun, outerStepC10_0, outerStepC10_1, outerStepC10_2]
    norm_num
  refine ⟨ht, ?_⟩
  rw [ht]
  norm_num

/-- Witness for `stepSize_schedules` at concrete inputs: the schedule ends
at the minimum for `N = 3`, is non-increasing between iterations 1 and 2,
and the committed multivariate step `outerStepC10_0` keeps or halves the
step size. -/
theorem stepSize_schedules_witness :
    consolidatedStepSize 3 3 = 1 / 10 ^ 6 ∧
      consolidatedStepSize 3 2 ≤ consolidatedStepSize 3 1 ∧
      ∃ k : Nat, k ≤ 100 ∧
        (GDState.mk [11] 1).stepSize = (GDState.mk [10] 1).stepSize / 2 ^ k :=
  ⟨stepSize_schedules.2.1 3 (by norm_num),
   stepSize_schedules.2.2.1 3 1 2 (by norm_num) (by norm_num),
   stepSize_schedules.2.2.2 lossC10 gradC10 id ⟨[10], 1⟩ ⟨[11], 1⟩
     outerStepC10_0⟩

/-! ## Weighed-bivariate imputation — `src/unnamed/part_013`

Tables are embedded as association lists in iteration order (JS object
iteration order is insertion order for string keys).  The source
functions `calculateBenchmarkEstimators`, `predictBivariateScoreEstimates`
and `predictBivariateScoreVariances` build nested lookup objects that are
read back by key; here each table entry is computed on demand by a
function of the key (`estimatorFor`, `predictionFor`, `varianceFor`),
which agrees with the materialized table at every key the source ever
reads — a key is absent from the source's tables exactly when the
corresponding guard in the on-demand function returns `none`/the default
branch. -/

/-- One post-index benchmark cell `{name, score, source, stdDev}`
(`score = null` for a missing cell). -/
structure Bench where
  name : String
  score : Option ℚ
  source : String
  stdDev : ℚ
  deriving DecidableEq

/-- A raw input benchmark entry as it appears in a model's `benchmarks`
array; `source` and `stdDev` may be absent (JS `undefined`), which
`indexBenchmarkData` defaults with `|| 'Original'` and `|| 0`.  (The
falsy empty string, also defaulted by `||`, is not distinguished from an
absent `source`.) -/
structure RawBench where
  name : String
  score : Option ℚ
  source : Option String
  stdDev : Option ℚ
  deriving DecidableEq

/-- A raw input model `{name, benchmarks}`; the `company`/`url`/
`release_date` metadata, which the algorithms thread through untouched,
is omitted. -/
structure RawModel where
  name : String
  benchmarks : List RawBench
  deriving DecidableEq

/-- Raw input `{models: [...]}`. -/
structure RawTable where
  models : List RawModel
  deriving DecidableEq

/-- A model's cells keyed by benchmark name. -/
abbrev ModelCells := List (String × Bench)

/-- The output of `indexBenchmarkData`: `{benchmarkNames, modelFromName}`
(the `modelInfo` metadata map is omitted together with its read-back in
`unindexBenchmarkData`). -/
structure IndexedData where
  benchmarkNames : List String
  modelFromName : List (String × ModelCells)
  deriving DecidableEq

/-- Output shape of `unindexBenchmarkData`:
`{models: [{name, benchmarks: [cell]}]}`. -/
structure OutModel where
  name : String
  benchmarks : List Bench
  deriving DecidableEq

structure OutTable where
  models : List OutModel
  deriving DecidableEq

/-- JS `Set.add`: keep the first occurrence. -/
def insertNew (l : List String) (x : String) : List String :=
  if x ∈ l then l else l ++ [x]

/-- The `benchmarkNames` set of `indexBenchmarkData`, in insertion
order. -/
def benchmarkNamesOf (t : RawTable) : List String :=
  t.models.foldl
    (fun acc m => m.benchmarks.foldl (fun acc b => insertNew acc b.name) acc)
    []

/-- The `modelNames` set of `indexBenchmarkData`, in insertion order. -/
def modelNamesOf (t : RawTable) : List String :=
  t.models.foldl (fun acc m => insertNew acc m.name) []

/-- The list of raw entries pushed into `modelFromName[model][bench]`, in
input order. -/
def entriesFor (t : RawTable) (model bench : String) : List RawBench :=
  (t.models.filter fun m => m.name == model).foldl
    (fun acc m => acc ++ (m.benchmarks.filter fun b => b.name == bench)) []

/-- The merge step of `indexBenchmarkData` for one `(model, bench)` cell:
two or more entries are averaged, with Bessel-corrected standard
deviation and a combined provenance string; a single entry is kept with
defaulted `source`/`stdDev`; no entry yields the missing cell with
source `'Bivariate regression'`.  (JS coerces a `null` score to 0 in
arithmetic, hence `.getD 0`.) -/
def mergeEntries (sqrtFn : ℚ → ℚ) (bench : String) (entries : List RawBench) :
    Bench :=
  if 2 ≤ entries.length then
    let sumScores := (entries.map fun e => e.score.getD 0).sum
    let avgScore := sumScores / (entries.length : ℚ)
    let sumErrors :=
      (entries.map fun e =>
        (e.score.getD 0 - avgScore) * (e.score.getD 0 - avgScore)).sum
    let stdDev := sqrtFn (sumErrors / ((entries.length - 1 : Nat) : ℚ))
    let source := "Multiple: " ++ String.intercalate "; "
      (entries.map fun e =>
        "Score " ++ toString (e.score.getD 0) ++ " at " ++ e.source.getD "")
    ⟨bench, some avgScore, source, stdDev⟩
  else
    match entries with
    | [e] => ⟨e.name, e.score, e.source.getD "Original", e.stdDev.getD 0⟩
    | _ => ⟨bench, none, "Bivariate regression", 0⟩

/-- `indexBenchmarkData(benchmarks)` (part_013 lines 345–423). -/
def indexBenchmarkData (sqrtFn : ℚ → ℚ) (t : RawTable) : IndexedData :=
  let benchmarkNames := benchmarkNamesOf t
  ⟨benchmarkNames,
   (modelNamesOf t).map fun m =>
     (m, benchmarkNames.map fun b => (b, mergeEntries sqrtFn b (entriesFor t m b)))⟩

/-- `mean(values)`: arithmetic mean, 0 for the empty list. -/
def mean (values : List ℚ) : ℚ :=
  if values.length = 0 then 0 else values.sum / (values.length : ℚ)

/-- `model[b] ? model[b].score : null`. -/
def cellScore (model : ModelCells) (b : String) : Option ℚ :=
  (model.lookup b).bind Bench.score

/-- The paired scores `(s[bj], s[bk])` over models where both are real
(`calculateBenchmarkEstimators`, inner collection loop). -/
def estimatorPairs (d : IndexedData) (bk bj : String) : List (ℚ × ℚ) :=
  d.modelFromName.filterMap fun m =>
    match cellScore m.2 bj, cellScore m.2 bk with
    | some sbj, some sbk => some (sbj, sbk)
    | _, _ => none

/-- A pairwise regressor `{a, b}`: predicted score is
`a·known_score + b`. -/
structure Estimator where
  a : ℚ
  b : ℚ
  deriving DecidableEq

/-- The body of `calculateBenchmarkEstimators` for one ordered pair
(`bk` predicted from `bj`):
`a = Σ dj·dk / Σ dj²` (0 with no pairs or zero denominator),
`b = mean_k − a·mean_j`. -/
def estimatorFor (d : IndexedData) (bk bj : String) : Estimator :=
  let pairs := estimatorPairs d bk bj
  if pairs.length = 0 then ⟨0, 0⟩
  else
    let meanSbj := mean (pairs.map Prod.fst)
    let meanSbk := mean (pairs.map Prod.snd)
    let num := (pairs.map fun p => (p.1 - meanSbj) * (p.2 - meanSbk)).sum
    let den := (pairs.map fun p => (p.1 - meanSbj) * (p.1 - meanSbj)).sum
    let a := if den ≠ 0 then num / den else 0
    ⟨a, meanSbk - a * meanSbj⟩

/-- `calculateBenchmarkEstimators(indexedData)` materialized:
`{<predicted bk>: {<predictor bj>: {a, b}}}`. -/
def calculateBenchmarkEstimators (d : IndexedData) :
    List (String × List (String × Estimator)) :=
  d.benchmarkNames.map fun bk =>
    (bk, d.benchmarkNames.map fun bj => (bj, estimatorFor d bk bj))

/-- `estimations[modelName][bk][bj].score`
(`predictBivariateScoreEstimates`): present iff `bj ≠ bk` and the model's
`bj` score is real; then `s[bj]·a[bj,bk] + b[bj,bk]`. -/
def predictionFor (d : IndexedData) (model : ModelCells) (bk bj : String) :
    Option ℚ :=
  if bj = bk then none
  else
    match cellScore model bj with
    | none => none
    | some sj =>
      let est := estimatorFor d bk bj
      some (sj * est.a + est.b)

/-- The per-pair statistics attached to an estimator by the first pass of
`predictBivariateScoreVariances`: `{mse, n, meanPredictor, sumSqDev}`. -/
structure EstStats where
  mse : ℚ
  n : Nat
  meanPredictor : ℚ
  sumSqDev : ℚ
  deriving DecidableEq

/-- The predictor score used in the MSE pass for a model whose `bj` score
is missing: the mean of that model's cross-predictions of `bj` (the list
is nonempty whenever this is reached, since the pass requires a real
`bk` score, which then predicts `bj`). -/
def predictorScoreForStats (d : IndexedData) (model : ModelCells)
    (bj : String) : ℚ :=
  match cellScore model bj with
  | some s => s
  | none =>
    let preds := model.filterMap fun e => predictionFor d model bj e.1
    preds.sum / (preds.length : ℚ)

/-- The `(predictorScore, predictedScore)` pairs of the MSE pass: one per
model with a present `bk` cell holding a real score and a present `bj`
cell. -/
def statsPairs (d : IndexedData) (bk bj : String) : List (ℚ × ℚ) :=
  d.modelFromName.filterMap fun m =>
    match m.2.lookup bk, m.2.lookup bj with
    | some cellK, some _ =>
      match cellK.score with
      | none => none
      | some sk => some (predictorScoreForStats d m.2 bj, sk)
    | _, _ => none

/-- First pass of `predictBivariateScoreVariances`: MSE over the stats
pairs with `max(n − 2, 1)` degrees of freedom, plus the leverage
statistics. -/
def estStats (d : IndexedData) (bk bj : String) : EstStats :=
  let est := estimatorFor d bk bj
  let pairs := statsPairs d bk bj
  if pairs.length = 0 then ⟨0, 0, 0, 0⟩
  else
    let predictorScores := pairs.map Prod.fst
    let meanPredictor := mean predictorScores
    let sumSqDev :=
      (predictorScores.map fun s => (s - meanPredictor) ^ 2).sum
    let se :=
      (pairs.map fun p =>
        let scoreDiff := p.2 - (p.1 * est.a + est.b)
        scoreDiff * scoreDiff).sum
    ⟨se / ((max (pairs.length - 2) 1 : Nat) : ℚ), pairs.length,
      meanPredictor, sumSqDev⟩

/-- `estimations[modelName][bk][bj].variance` (second pass of
`predictBivariateScoreVariances`): the leverage-adjusted variance
`mse·(1 + 1/n + (x − x̄)²/Σ(xᵢ − x̄)²)`, or the bare `mse` when the
model's `bj` score is missing, `n = 0`, or `sumSqDev = 0`. -/
def varianceFor (d : IndexedData) (model : ModelCells) (bk bj : String) :
    ℚ :=
  let est := estStats d bk bj
  match cellScore model bj with
  | none => est.mse
  | some predictorScore =>
    if est.n = 0 ∨ est.sumSqDev = 0 then est.mse
    else
      let leverageTerm :=
        (predictorScore - est.meanPredictor) ^ 2 / est.sumSqDev
      est.mse * (1 + 1 / (est.n : ℚ) + leverageTerm)

/-- `calculateMeansByBenchmark(indexedData)`: per-benchmark mean over the
models where the score is known. -/
def calculateMeansByBenchmark (d : IndexedData) : List (String × ℚ) :=
  d.benchmarkNames.map fun bench =>
    (bench, mean (d.modelFromName.filterMap fun m => cellScore m.2 bench))

/-- The `(name, prediction, variance)` triple of each predictor surviving
the guards of the missing-cell loop of `computeAllBenchmarks` (a real
`bj` score and a non-null `biScores[modelName][bk][bj]`), in model-entry
order. -/
def predictorInfos (d : IndexedData) (model : ModelCells) (bk : String) :
    List (String × ℚ × ℚ) :=
  model.filterMap fun e =>
    match e.2.score with
    | none => none
    | some _ =>
      match predictionFor d model bk e.1 with
      | none => none
      | some sk => some (e.1, sk, varianceFor d model bk e.1)

/-- The missing-cell branch of `computeAllBenchmarks` (part_013 lines
61–104): inverse-variance fusion of the predictor triples, with
`weight = 1/(variance + 1e-15)`, `numVar1 = Σ weight²·variance`, and the
cross term `numVar2` in which the source computes
`weight2 = 1 / (variance + 1e-15)` from the *outer* predictor's
`variance` (the inner predictor's `variance2` is bound but unused). -/
def estimateCell (sqrtFn : ℚ → ℚ) (d : IndexedData) (model : ModelCells)
    (bk : String) (meanK : ℚ) : Bench :=
  let infos := predictorInfos d model bk
  let eps : ℚ := 1 / 10 ^ 15
  let num := (infos.map fun j => j.2.1 * (1 / (j.2.2 + eps))).sum
  let den := (infos.map fun j => 1 / (j.2.2 + eps)).sum
  let numVar1 :=
    (infos.map fun j =>
      let weight := 1 / (j.2.2 + eps)
      weight * weight * j.2.2).sum
  let numVar2 :=
    (infos.map fun j =>
      let weight := 1 / (j.2.2 + eps)
      ((infos.filter fun l => l.1 ≠ j.1).map fun _ =>
        let weight2 := 1 / (j.2.2 + eps)
        weight * weight2).sum).sum
  if den = 0 then
    ⟨bk, some meanK, "Weighed bivariate regression", sqrtFn (meanK * meanK)⟩
  else
    let estimatedValue := num / den
    let estimatedVariance := (numVar1 + numVar2) / (den * den)
    ⟨bk, some estimatedValue, "Weighed bivariate regression",
      sqrtFn estimatedVariance⟩

/-- The per-cell body of `computeAllBenchmarks` (`newModel[bk] = …`):
copy a cell holding a real score whose source is not
`'Weighed bivariate regression'`; re-estimate every other cell. -/
def newCell (sqrtFn : ℚ → ℚ) (d : IndexedData) (means : List (String × ℚ))
    (cells : ModelCells) (bk : String) : Bench :=
  let meanK := (means.lookup bk).getD 0
  match cells.lookup bk with
  | some bench =>
    if bench.score.isSome ∧ bench.source ≠ "Weighed bivariate regression"
    then bench
    else estimateCell sqrtFn d cells bk meanK
  | none => estimateCell sqrtFn d cells bk meanK

/-- `computeAllBenchmarks(indexedData)` (part_013 lines 42–111). -/
def computeAllBenchmarks (sqrtFn : ℚ → ℚ) (d : IndexedData) : IndexedData :=
  let means := calculateMeansByBenchmark d
  ⟨d.benchmarkNames,
   d.modelFromName.map fun m =>
     (m.1, d.benchmarkNames.map fun bk => (bk, newCell sqrtFn d means m.2 bk))⟩

/-- The write-back loop of `estimateMissingBenchmarks` (part_013 lines
19–26): copy `score`, `stdDev` and `source` of every estimated cell into
the indexed data.  (The JS loop iterates the estimate table and mutates
the indexed cells in place; the traversal here walks the indexed table,
updating each cell found in the estimates — the two tables always carry
the same keys.) -/
def writeBack (d : IndexedData) (est : IndexedData) : IndexedData :=
  ⟨d.benchmarkNames,
   d.modelFromName.map fun m =>
     (m.1,
      m.2.map fun c =>
        match (est.modelFromName.lookup m.1).bind (fun mo => mo.lookup c.1) with
        | some b =>
          (c.1, { c.2 with score := b.score, stdDev := b.stdDev,
                           source := b.source })
        | none => c)⟩

/-- `unindexBenchmarkData(benchmarks)`: models in table order, cells in
`benchmarkNames` order.  (For well-formed data every lookup succeeds; JS
would push `undefined` for an absent cell.) -/
def unindexBenchmarkData (d : IndexedData) : OutTable :=
  ⟨d.modelFromName.map fun m =>
    ⟨m.1, d.benchmarkNames.map fun bn => ((m.2.lookup bn).getD ⟨bn, none, "", 0⟩)⟩⟩

/-- `estimateMissingBenchmarks(benchmarks, iterations)` (part_013 lines
9–30): index, run `computeAllBenchmarks` `iterations` times, write the
estimated scores back, unindex. -/
def estimateMissingBenchmarks (sqrtFn : ℚ → ℚ) (t : RawTable)
    (iterations : Nat) : OutTable :=
  let indexedData := indexBenchmarkData sqrtFn t
  let scoreEstimates := (computeAllBenchmarks sqrtFn)^[iterations] indexedData
  unindexBenchmarkData (writeBack indexedData scoreEstimates)

/-! ### A concrete table exercising the imputation combiner

Three benchmarks, three fully observed models and one model `m4` with
`b3` missing, chosen so that the two bivariate predictions of `(m4, b3)`
carry *different* variances (2/9 from `b1`, 11/4 from `b2`). -/

/-- An observed cell: real score, source `'Original'`, `stdDev` 0. -/
def obsCell (b : String) (s : ℚ) : String × Bench :=
  (b, ⟨b, some s, "Original", 0⟩)

/-- Model `m4`: `b1 = 1`, `b2 = 1`, `b3` missing. -/
def crossCovarianceModel : ModelCells :=
  [obsCell "b1" 1, obsCell "b2" 1,
   ("b3", ⟨"b3", none, "Bivariate regression", 0⟩)]

/-- The indexed table: `m1 = (0,0,0)`, `m2 = (1,2,1)`, `m3 = (2,2,3)`,
`m4 = (1,1,—)`. -/
def crossCovarianceTable : IndexedData :=
  ⟨["b1", "b2", "b3"],
   [("m1", [obsCell "b1" 0, obsCell "b2" 0, obsCell "b3" 0]),
    ("m2", [obsCell "b1" 1, obsCell "b2" 2, obsCell "b3" 1]),
    ("m3", [obsCell "b1" 2, obsCell "b2" 2, obsCell "b3" 3]),
    ("m4", crossCovarianceModel)]⟩

/-- `b3 ← b1` regressor on the three observed models: slope 3/2,
intercept −1/6. -/
theorem cc_est1 :
    estimatorFor crossCovarianceTable "b3" "b1" = ⟨3 / 2, -1 / 6⟩ := by
  simp [estimatorFor, estimatorPairs, cellScore, mean, crossCovarianceTable,
    crossCovarianceModel, obsCell, List.lookup, List.filterMap]
  norm_num

/-- `b3 ← b2` regressor: slope 1, intercept 0. -/
theorem cc_est2 :
    estimatorFor crossCovarianceTable "b3" "b2" = ⟨1, 0⟩ := by
  simp [estimatorFor, estimatorPairs, cellScore, mean, crossCovarianceTable,
    crossCovarianceModel, obsCell, List.lookup, List.filterMap]
  norm_num

/-- `b3 ← b1` statistics: `mse = 1/6`, `n = 3`, mean predictor 1, sum of
squared deviations 2. -/
theorem cc_stats1 :
    estStats crossCovarianceTable "b3" "b1" = ⟨1 / 6, 3, 1, 2⟩ := by
  simp only [estStats, cc_est1]
  simp [statsPairs, predictorScoreForStats, cellScore, mean,
    crossCovarianceTable, crossCovarianceModel, obsCell, List.lookup,
    List.filterMap]
  norm_num

/-- `b3 ← b2` statistics: `mse = 2`, `n = 3`, mean predictor 4/3, sum of
squared deviations 8/3. -/
theorem cc_stats2 :
    estStats crossCovarianceTable "b3" "b2" = ⟨2, 3, 4 / 3, 8 / 3⟩ := by
  simp only [estStats, cc_est2]
  simp [statsPairs, predictorScoreForStats, cellScore, mean,
    crossCovarianceTable, crossCovarianceModel, obsCell, List.lookup,
    List.filterMap]
  norm_num

/-- The two predictors of `(m4, b3)`: prediction 4/3 with variance 2/9
from `b1`, prediction 1 with variance 11/4 from `b2`. -/
theorem cc_infos :
    predictorInfos crossCovarianceTable crossCovarianceModel "b3" =
      [("b1", 4 / 3, 2 / 9), ("b2", 1, 11 / 4)] := by
  simp [predictorInfos, predictionFor, varianceFor, cc_est1, cc_est2,
    cc_stats1, cc_stats2, cellScore, crossCovarianceModel, obsCell,
    List.lookup, List.filterMap]
  norm_num

/-- Per-benchmark means of the observed scores. -/
theorem cc_means : calculateMeansByBenchmark crossCovarianceTable =
    [("b1", 1), ("b2", 5 / 4), ("b3", 4 / 3)] := by
  simp [calculateMeansByBenchmark, mean, cellScore, crossCovarianceTable,
    crossCovarianceModel, obsCell, List.lookup, List.filterMap]
  norm_num

/-- The fused `(m4, b3)` cell computed by the missing-cell branch (with
`sqrtFn = id`, so the stored `stdDev` reads back the fused variance). -/
theorem cc_cell :
    estimateCell id crossCovarianceTable crossCovarianceModel "b3" (4 / 3) =
      ⟨"b3", some (5000000000000003 / 3821428571428574),
        "Weighed bivariate regression",
        62341836734693933020408163265339 / 58413265306122527591836734693904⟩ := by
  simp only [estimateCell, cc_infos]
  simp [List.filter]
  norm_num

/-- The fused variance that the spec's words prescribe for predictions
`ŝ_j` with variances `v_j` (spec §4.4):
`Var(ŝ) = (Σ v_j/v_j² + Σ_{j≠l} cov-term) / (Σ 1/v_j)²` with the
off-diagonal covariance treated as 1 — weights `w_j = 1/v_j`, cross term
`Σ_{j≠l} w_j·w_l`.  Stated from the spec's words for comparison with
`estimateCell`'s output. -/
def specFusedVariance (preds : List (ℚ × ℚ)) : ℚ :=
  let ws := preds.map fun p => 1 / p.2
  let varTerm := (preds.map fun p => p.2 / (p.2 * p.2)).sum
  let covTerm :=
    (ws.enum.map fun j =>
      ((ws.enum.filter fun l => l.1 ≠ j.1).map fun l => j.2 * l.2).sum).sum
  (varTerm + covTerm) / ws.sum ^ 2

/-- C5.  Evaluating `computeAllBenchmarks` at `crossCovarianceTable`: the
two predictions of the missing cell `(m4, b3)` are `(4/3, v₁ = 2/9)` and
`(1, v₂ = 11/4)`, and the cell the code stores has fused variance
`62341836734693933020408163265339/58413265306122527591836734693904`
(≈ 1.0673, read back via `sqrtFn = id`), whereas the spec's
inverse-variance formula with unit off-diagonal covariance gives
`3938/11449` (≈ 0.344) on those same predictions: in the source's inner
covariance loop, `weight2` is computed as `1/(variance + 1e-15)` from the
*outer* predictor's `variance` — the inner predictor's `variance2` is
declared but never used — so the cross term becomes `Σ_{j≠l} w_j²`
instead of `Σ_{j≠l} w_j·w_l`. -/
theorem computeAllBenchmarks_covariance_term_uses_wrong_weight :
    predictorInfos crossCovarianceTable crossCovarianceModel "b3" =
        [("b1", 4 / 3, 2 / 9), ("b2", 1, 11 / 4)] ∧
      ((computeAllBenchmarks id crossCovarianceTable).modelFromName.lookup
            "m4").bind (fun mo => mo.lookup "b3") =
        some ⟨"b3", some (5000000000000003 / 3821428571428574),
          "Weighed bivariate regression",
          62341836734693933020408163265339 /
            58413265306122527591836734693904⟩ ∧
      specFusedVariance [(4 / 3, 2 / 9), (1, 11 / 4)] = 3938 / 11449 ∧
      (62341836734693933020408163265339 : ℚ) /
          58413265306122527591836734693904 ≠ 3938 / 11449 := by
  refine ⟨cc_infos, ?_, ?_, by norm_num⟩
  · have hb : crossCovarianceTable.benchmarkNames = ["b1", "b2", "b3"] := rfl
    have hm : crossCovarianceTable.modelFromName =
        [("m1", [obsCell "b1" 0, obsCell "b2" 0, obsCell "b3" 0]),
         ("m2", [obsCell "b1" 1, obsCell "b2" 2, obsCell "b3" 1]),
         ("m3", [obsCell "b1" 2, obsCell "b2" 2, obsCell "b3" 3]),
         ("m4", crossCovarianceModel)] := rfl
    have hlk1 : crossCovarianceModel.lookup "b1" =
        some ⟨"b1", some 1, "Original", 0⟩ := rfl
    have hlk2 : crossCovarianceModel.lookup "b2" =
        some ⟨"b2", some 1, "Original", 0⟩ := rfl
    have hlk3 : crossCovarianceModel.lookup "b3" =
        some ⟨"b3", none, "Bivariate regression", 0⟩ := rfl
    simp only [computeAllBenchmarks, cc_means, hb, hm]
    simp [newCell, hlk1, hlk2, hlk3, cc_cell, obsCell, List.lookup]
  · simp [specFusedVariance, List.enum, List.enumFrom, List.filter]
    norm_num

/-- The mean of a nonempty constant list is the constant. -/
theorem mean_const (l : List ℚ) (c : ℚ) (hne : l ≠ [])
    (h : ∀ x ∈ l, x = c) : mean l = c := by
  have h0 : l.length ≠ 0 := fun hh => hne (List.length_eq_zero.1 hh)
  have hlen : (l.length : ℚ) ≠ 0 := Nat.cast_ne_zero.2 h0
  have hsum : l.sum = (l.length : ℚ) * c := by
    rw [List.sum_eq_card_nsmul l c h, nsmul_eq_mul]
  rw [mean, if_neg h0, hsum]
  field_simp

/-- C4.  The pairwise estimator over the doubly-observed sample:
`a = Σ(xj−x̄j)(xk−x̄k) / Σ(xj−x̄j)²` with `a = 0` when there are no pairs
or the denominator vanishes (an empty sum is 0, so the two cases
coincide in the single `if`), and `b = x̄k − a·x̄j` unconditionally (the
mean of an empty sample is 0 by the `mean` convention); when every
observed predictor value equals a constant, the slope is exactly 0 and
the intercept is the mean of the target over the pairs.  The
materialized estimator table agrees with `estimatorFor` at every pair of
table benchmarks. -/
theorem calculateBenchmarkEstimators_closed_form (d : IndexedData)
    (bk bj : String) :
    (bk ∈ d.benchmarkNames → bj ∈ d.benchmarkNames →
      ((calculateBenchmarkEstimators d).lookup bk).bind
        (fun row => row.lookup bj) = some (estimatorFor d bk bj)) ∧
    (estimatorFor d bk bj).a =
      (if ((estimatorPairs d bk bj).map fun p =>
            (p.1 - mean ((estimatorPairs d bk bj).map Prod.fst)) *
              (p.1 - mean ((estimatorPairs d bk bj).map Prod.fst))).sum ≠ 0
       then
        ((estimatorPairs d bk bj).map fun p =>
            (p.1 - mean ((estimatorPairs d bk bj).map Prod.fst)) *
              (p.2 - mean ((estimatorPairs d bk bj).map Prod.snd))).sum /
          ((estimatorPairs d bk bj).map fun p =>
            (p.1 - mean ((estimatorPairs d bk bj).map Prod.fst)) *
              (p.1 - mean ((estimatorPairs d bk bj).map Prod.fst))).sum
       else 0) ∧
    (estimatorFor d bk bj).b =
      mean ((estimatorPairs d bk bj).map Prod.snd) -
        (estimatorFor d bk bj).a * mean ((estimatorPairs d bk bj).map Prod.fst) ∧
    (∀ c : ℚ, (∀ p ∈ estimatorPairs d bk bj, p.1 = c) →
      (estimatorFor d bk bj).a = 0 ∧
      (estimatorFor d bk bj).b =
        mean ((estimatorPairs d bk bj).map Prod.snd)) := by
  have htab : bk ∈ d.benchmarkNames → bj ∈ d.benchmarkNames →
      ((calculateBenchmarkEstimators d).lookup bk).bind
        (fun row => row.lookup bj) = some (estimatorFor d bk bj) := by
    intro hbk hbj
    rw [calculateBenchmarkEstimators, lookup_map_self
      (fun bk' => d.benchmarkNames.map fun bj' => (bj', estimatorFor d bk' bj'))
      d.benchmarkNames bk, if_pos hbk]
    simp only [Option.some_bind]
    rw [lookup_map_self (fun bj' => estimatorFor d bk bj')
      d.benchmarkNames bj, if_pos hbj]
  by_cases hE : estimatorPairs d bk bj = []
  · have ha : (estimatorFor d bk bj).a = 0 := by
      simp [estimatorFor, hE]
    have hb : (estimatorFor d bk bj).b = 0 := by
      simp [estimatorFor, hE]
    refine ⟨htab, ?_, ?_, ?_⟩
    · rw [ha, hE]
      simp
    · rw [hb, ha, hE]
      simp [mean]
    · intro c _
      rw [ha, hb, hE]
      simp [mean]
  · have hlen : ¬ (estimatorPairs d bk bj).length = 0 := by simpa using hE
    have ha : (estimatorFor d bk bj).a =
        (if ((estimatorPairs d bk bj).map fun p =>
              (p.1 - mean ((estimatorPairs d bk bj).map Prod.fst)) *
                (p.1 - mean ((estimatorPairs d bk bj).map Prod.fst))).sum ≠ 0
         then
          ((estimatorPairs d bk bj).map fun p =>
              (p.1 - mean ((estimatorPairs d bk bj).map Prod.fst)) *
                (p.2 - mean ((estimatorPairs d bk bj).map Prod.snd))).sum /
            ((estimatorPairs d bk bj).map fun p =>
              (p.1 - mean ((estimatorPairs d bk bj).map Prod.fst)) *
                (p.1 - mean ((estimatorPairs d bk bj).map Prod.fst))).sum
         else 0) := by
      rw [estimatorFor, if_neg hlen]
    have hb : (estimatorFor d bk bj).b =
        mean ((estimatorPairs d bk bj).map Prod.snd) -
          (estimatorFor d bk bj).a *
            mean ((estimatorPairs d bk bj).map Prod.fst) := by
      conv_lhs => rw [estimatorFor, if_neg hlen]
      rw [ha]
    refine ⟨htab, ha, hb, ?_⟩
    intro c hc
    have hmJ : mean ((estimatorPairs d bk bj).map Prod.fst) = c := by
      apply mean_const _ _ (by simpa using hE)
      intro x hx
      obtain ⟨p, hp, rfl⟩ := List.mem_map.1 hx
      exact hc p hp
    have hden : ((estimatorPairs d bk bj).map fun p =>
        (p.1 - mean ((estimatorPairs d bk bj).map Prod.fst)) *
          (p.1 - mean ((estimatorPairs d bk bj).map Prod.fst))).sum = 0 := by
      apply List.sum_eq_zero
      intro x hx
      obtain ⟨p, hp, rfl⟩ := List.mem_map.1 hx
      rw [hc p hp, hmJ]
      ring
    have ha0 : (estimatorFor d bk bj).a = 0 := by
      rw [ha, if_neg (by simpa using hden)]
    exact ⟨ha0, by rw [hb, ha0, hmJ]; ring⟩

/-- A table where every observed predictor value of `b1` is the constant
5 while the `b2` targets are 3 and 7. -/
def constXTable : IndexedData :=
  ⟨["b1", "b2"],
   [("mA", [obsCell "b1" 5, obsCell "b2" 3]),
    ("mB", [obsCell "b1" 5, obsCell "b2" 7])]⟩

/-- Witness for `calculateBenchmarkEstimators_closed_form` on
`constXTable` (`b2` predicted from `b1`): the constant-predictor sample
`[(5,3), (5,7)]` yields slope 0 and intercept `mean [3,7] = 5`. -/
theorem calculateBenchmarkEstimators_closed_form_witness :
    (((calculateBenchmarkEstimators constXTable).lookup "b2").bind
        (fun row => row.lookup "b1") =
      some (estimatorFor constXTable "b2" "b1")) ∧
    (estimatorFor constXTable "b2" "b1").a = 0 ∧
      (estimatorFor constXTable "b2" "b1").b =
        mean ((estimatorPairs constXTable "b2" "b1").map Prod.snd) := by
  have hpairs : estimatorPairs constXTable "b2" "b1" = [(5, 3), (5, 7)] := by
    simp [estimatorPairs, cellScore, constXTable, obsCell, List.lookup,
      List.filterMap]
  refine ⟨(calculateBenchmarkEstimators_closed_form constXTable "b2" "b1").1
    (by decide) (by decide), ?_⟩
  exact (calculateBenchmarkEstimators_closed_form constXTable "b2" "b1").2.2.2
    5 (by rw [hpairs]; intro p hp; fin_cases hp <;> norm_num)

/-! ### Known-value preservation across imputation passes -/

/-- The benchmark-name list is invariant under the combiner. -/
theorem benchmarkNames_iterate (sqrtFn : ℚ → ℚ) (n : Nat) (d : IndexedData) :
    (((computeAllBenchmarks sqrtFn)^[n]) d).benchmarkNames =
      d.benchmarkNames := by
  induction n with
  | zero => rfl
  | succ k ih => rw [Function.iterate_succ_apply']; exact ih

/-- One pass of `computeAllBenchmarks` keeps every cell that holds a real
score under a non-sentinel source. -/
theorem computeAllBenchmarks_preserves_cell (sqrtFn : ℚ → ℚ)
    (d : IndexedData) (m bk : String) (bench : Bench)
    (hbk : bk ∈ d.benchmarkNames)
    (hcell : ((d.modelFromName.lookup m).bind fun mo => mo.lookup bk) =
      some bench)
    (hscore : bench.score.isSome)
    (hsrc : bench.source ≠ "Weighed bivariate regression") :
    (((computeAllBenchmarks sqrtFn d).modelFromName.lookup m).bind
      fun mo => mo.lookup bk) = some bench := by
  obtain ⟨mo, hmo, hlk⟩ : ∃ mo, d.modelFromName.lookup m = some mo ∧
      mo.lookup bk = some bench := by
    cases h : d.modelFromName.lookup m with
    | none => rw [h] at hcell; simp at hcell
    | some mo =>
      refine ⟨mo, rfl, ?_⟩
      rw [h] at hcell
      simpa using hcell
  have hmap : (computeAllBenchmarks sqrtFn d).modelFromName =
      d.modelFromName.map fun e =>
        (e.1, d.benchmarkNames.map fun bk' =>
          (bk', newCell sqrtFn d (calculateMeansByBenchmark d) e.2 bk')) := rfl
  rw [hmap, lookup_map_entries
    (fun _ cells => d.benchmarkNames.map fun bk' =>
      (bk', newCell sqrtFn d (calculateMeansByBenchmark d) cells bk'))
    d.modelFromName m, hmo]
  simp only [Option.map_some', Option.some_bind]
  rw [lookup_map_self
    (fun bk' => newCell sqrtFn d (calculateMeansByBenchmark d) mo bk')
    d.benchmarkNames bk, if_pos hbk]
  simp only [newCell, hlk]
  rw [if_pos ⟨hscore, hsrc⟩]

/-- C2 (amended).  Every cell holding a real score whose provenance is
not the imputation sentinel `'Weighed bivariate regression'` — in
particular every originally observed, merged cell, whose source is
`'Original'` or `'Multiple: …'` — is returned unchanged (score, stdDev
and source) by any number of `computeAllBenchmarks` passes.  (A cell
whose input provenance equals the sentinel is treated as
previously-imputed and rewritten, even if its score was originally
observed; see the counterexample.) -/
theorem imputation_preserves_nonsentinel_observed_cells
    (sqrtFn : ℚ → ℚ) (d : IndexedData) (n : Nat) (m bk : String)
    (bench : Bench)
    (hbk : bk ∈ d.benchmarkNames)
    (hcell : ((d.modelFromName.lookup m).bind fun mo => mo.lookup bk) =
      some bench)
    (hscore : bench.score.isSome)
    (hsrc : bench.source ≠ "Weighed bivariate regression") :
    (((((computeAllBenchmarks sqrtFn)^[n]) d).modelFromName.lookup m).bind
      fun mo => mo.lookup bk) = some bench := by
  induction n with
  | zero => simpa using hcell
  | succ k ih =>
    rw [Function.iterate_succ_apply']
    exact computeAllBenchmarks_preserves_cell sqrtFn _ m bk bench
      (by rw [benchmarkNames_iterate]; exact hbk) ih hscore hsrc

/-- Witness: the observed cell `(m2, b1)` of `crossCovarianceTable`
survives two imputation passes untouched. -/
theorem imputation_preserves_nonsentinel_observed_cells_witness :
    (((((computeAllBenchmarks id)^[2]) crossCovarianceTable).modelFromName.lookup
        "m2").bind fun mo => mo.lookup "b1") =
      some ⟨"b1", some 1, "Original", 0⟩ :=
  imputation_preserves_nonsentinel_observed_cells id crossCovarianceTable 2
    "m2" "b1" ⟨"b1", some 1, "Original", 0⟩ (by decide) rfl rfl (by decide)

/-! ### A table with an observed cell carrying the sentinel source -/

/-- Model `m1`: `b1 = 5` observed, but its provenance string is exactly
the sentinel `'Weighed bivariate regression'` (e.g. the algorithm's own
output fed back as input); `b2 = 10` observed normally. -/
def sentinelModel : ModelCells :=
  [("b1", ⟨"b1", some 5, "Weighed bivariate regression", 0⟩),
   obsCell "b2" 10]

/-- Three models: `m1 = (5 [sentinel], 10)`, `m2 = (1, 1)`,
`m3 = (1, 2)`. -/
def sentinelTable : IndexedData :=
  ⟨["b1", "b2"],
   [("m1", sentinelModel),
    ("m2", [obsCell "b1" 1, obsCell "b2" 1]),
    ("m3", [obsCell "b1" 1, obsCell "b2" 2])]⟩

/-- `b1 ← b2` regressor on `sentinelTable`. -/
theorem sent_est : estimatorFor sentinelTable "b1" "b2" = ⟨34 / 73, 23 / 73⟩ := by
  simp [estimatorFor, estimatorPairs, cellScore, mean, sentinelTable,
    sentinelModel, obsCell, List.lookup, List.filterMap]
  norm_num

/-- `b1 ← b2` statistics on `sentinelTable`. -/
theorem sent_stats :
    estStats sentinelTable "b1" "b2" = ⟨8 / 73, 3, 13 / 3, 146 / 3⟩ := by
  simp only [estStats, sent_est]
  simp [statsPairs, predictorScoreForStats, cellScore, mean, sentinelTable,
    sentinelModel, obsCell, List.lookup, List.filterMap]
  norm_num

/-- The single predictor of `(m1, b1)`: prediction 363/73 from `b2` with
variance 1164/5329. -/
theorem sent_infos : predictorInfos sentinelTable sentinelModel "b1" =
    [("b2", 363 / 73, 1164 / 5329)] := by
  simp [predictorInfos, predictionFor, varianceFor, sent_est, sent_stats,
    cellScore, sentinelModel, obsCell, List.lookup, List.filterMap]
  norm_num

/-- Means of `sentinelTable`. -/
theorem sent_means : calculateMeansByBenchmark sentinelTable =
    [("b1", 7 / 3), ("b2", 13 / 3)] := by
  simp [calculateMeansByBenchmark, mean, cellScore, sentinelTable,
    sentinelModel, obsCell, List.lookup, List.filterMap]
  norm_num

/-- The re-estimated `(m1, b1)` cell (with one predictor the `1e-15`
regularizer cancels: score `363/73`, variance `1164/5329`). -/
theorem sent_cell :
    estimateCell id sentinelTable sentinelModel "b1" (7 / 3) =
      ⟨"b1", some (363 / 73), "Weighed bivariate regression",
        1164 / 5329⟩ := by
  simp only [estimateCell, sent_infos]
  simp [List.filter]
  norm_num

/-- C2 counterexample.  The cell `(m1, b1)` of `sentinelTable` is
originally observed with score 5, yet its provenance string equals the
sentinel `'Weighed bivariate regression'`, so one pass of
`computeAllBenchmarks` rewrites it: the output score is `363/73 ≠ 5`
(and the stdDev changes from 0 as well).  The claim, as stated for
*every* cell whose score was originally observed, therefore fails. -/
theorem sentinel_source_observed_cell_rewritten :
    ((sentinelTable.modelFromName.lookup "m1").bind
        fun mo => mo.lookup "b1") =
      some ⟨"b1", some 5, "Weighed bivariate regression", 0⟩ ∧
    (((computeAllBenchmarks id sentinelTable).modelFromName.lookup
        "m1").bind fun mo => mo.lookup "b1") =
      some ⟨"b1", some (363 / 73), "Weighed bivariate regression",
        1164 / 5329⟩ ∧
    (363 / 73 : ℚ) ≠ 5 := by
  refine ⟨rfl, ?_, by norm_num⟩
  have hb : sentinelTable.benchmarkNames = ["b1", "b2"] := rfl
  have hm : sentinelTable.modelFromName =
      [("m1", sentinelModel),
       ("m2", [obsCell "b1" 1, obsCell "b2" 1]),
       ("m3", [obsCell "b1" 1, obsCell "b2" 2])] := rfl
  have hlk1 : sentinelModel.lookup "b1" =
      some ⟨"b1", some 5, "Weighed bivariate regression", 0⟩ := rfl
  have hlk2 : sentinelModel.lookup "b2" =
      some ⟨"b2", some 10, "Original", 0⟩ := rfl
  simp only [computeAllBenchmarks, sent_means, hb, hm]
  simp [newCell, hlk1, hlk2, sent_cell, obsCell, List.lookup]

/-! ### Zero-iteration behaviour of the combiner -/

/-- `insertNew` keeps the name list duplicate-free. -/
theorem insertNew_nodup {l : List String} {x : String} (h : l.Nodup) :
    (insertNew l x).Nodup := by
  unfold insertNew
  split
  · exact h
  · next hx =>
    rw [List.nodup_append]
    exact ⟨h, List.nodup_singleton x,
      fun a ha hax => hx (by simpa [List.mem_singleton.1 hax] using ha)⟩

/-- A fold preserves any property its step preserves. -/
theorem foldl_preserves {α β : Type _} (P : β → Prop) (f : β → α → β)
    (hf : ∀ b a, P b → P (f b a)) :
    ∀ (xs : List α) (acc : β), P acc → P (xs.foldl f acc) := by
  intro xs
  induction xs with
  | nil => intro acc h; exact h
  | cons x t ih => intro acc h; exact ih (f acc x) (hf acc x h)

/-- The model-name list produced by `indexBenchmarkData` has no
duplicates. -/
theorem modelNamesOf_nodup (t : RawTable) : (modelNamesOf t).Nodup :=
  foldl_preserves List.Nodup
    (fun acc (m : RawModel) => insertNew acc m.name)
    (fun _ _ h => insertNew_nodup h) t.models [] List.nodup_nil

/-- The benchmark-name list produced by `indexBenchmarkData` has no
duplicates. -/
theorem benchmarkNamesOf_nodup (t : RawTable) : (benchmarkNamesOf t).Nodup :=
  foldl_preserves List.Nodup
    (fun acc (m : RawModel) =>
      m.benchmarks.foldl (fun acc (b : RawBench) => insertNew acc b.name) acc)
    (fun acc m h =>
      foldl_preserves List.Nodup
        (fun acc (b : RawBench) => insertNew acc b.name)
        (fun _ _ h => insertNew_nodup h) m.benchmarks acc h)
    t.models [] List.nodup_nil

/-- A map whose function fixes every member is the identity. -/
theorem map_eq_self {α : Type _} {l : List α} {f : α → α}
    (h : ∀ a ∈ l, f a = a) : l.map f = l := by
  induction l with
  | nil => rfl
  | cons x t ih =>
    rw [List.map_cons, h x (List.mem_cons_self x t),
      ih fun a ha => h a (List.mem_cons_of_mem x ha)]

/-- Writing an indexed table's own cells back into itself changes
nothing: with `iterations = 0` the write-back loop of
`estimateMissingBenchmarks` copies every cell onto itself. -/
theorem writeBack_index_self (sqrtFn : ℚ → ℚ) (t : RawTable) :
    writeBack (indexBenchmarkData sqrtFn t) (indexBenchmarkData sqrtFn t) =
      indexBenchmarkData sqrtFn t := by
  rw [writeBack]
  rw [indexBenchmarkData]
  refine congrArg (fun l => IndexedData.mk (benchmarkNamesOf t) l) ?_
  apply map_eq_self
  intro e he
  obtain ⟨m, hm, rfl⟩ := List.mem_map.1 he
  refine Prod.ext rfl ?_
  show (List.map _ _) = _
  apply map_eq_self
  intro c hc
  obtain ⟨b, hb, rfl⟩ := List.mem_map.1 hc
  have hlkm : List.lookup m ((modelNamesOf t).map fun m' =>
      (m', (benchmarkNamesOf t).map fun b' =>
        (b', mergeEntries sqrtFn b' (entriesFor t m' b')))) =
      some ((benchmarkNamesOf t).map fun b' =>
        (b', mergeEntries sqrtFn b' (entriesFor t m b'))) := by
    rw [lookup_map_self, if_pos hm]
  have hlkb : List.lookup b ((benchmarkNamesOf t).map fun b' =>
      (b', mergeEntries sqrtFn b' (entriesFor t m b'))) =
      some (mergeEntries sqrtFn b (entriesFor t m b)) := by
    rw [lookup_map_self, if_pos hb]
  simp only [hlkm, Option.some_bind, hlkb]

/-- C3 (amended).  With `iterations = 0` the combiner performs no
imputation at all: it returns the indexed-then-unindexed table with
every missing cell still missing (`estimateMissingBenchmarks t 0 =
unindexBenchmarkData (indexBenchmarkData t)`); and on the entirely-empty
table `{models: []}` it returns `{models: []}` for every iteration
count, without any error path. -/
theorem estimateMissingBenchmarks_zero_iterations :
    (∀ (sqrtFn : ℚ → ℚ) (t : RawTable),
      estimateMissingBenchmarks sqrtFn t 0 =
        unindexBenchmarkData (indexBenchmarkData sqrtFn t)) ∧
    (∀ (sqrtFn : ℚ → ℚ) (n : Nat),
      estimateMissingBenchmarks sqrtFn ⟨[]⟩ n = ⟨[]⟩) := by
  constructor
  · intro sqrtFn t
    show unindexBenchmarkData (writeBack (indexBenchmarkData sqrtFn t)
      (((computeAllBenchmarks sqrtFn)^[0]) (indexBenchmarkData sqrtFn t))) = _
    rw [Function.iterate_zero, id_eq, writeBack_index_self]
  · intro sqrtFn n
    have hiter : ((computeAllBenchmarks sqrtFn)^[n])
        (⟨[], []⟩ : IndexedData) = ⟨[], []⟩ := by
      induction n with
      | zero => rfl
      | succ k ih =>
        rw [Function.iterate_succ_apply', ih]
        exact rfl
    show unindexBenchmarkData (writeBack (indexBenchmarkData sqrtFn ⟨[]⟩)
      (((computeAllBenchmarks sqrtFn)^[n])
        (indexBenchmarkData sqrtFn ⟨[]⟩))) = _
    have hidx : indexBenchmarkData sqrtFn ⟨[]⟩ = ⟨[], []⟩ := rfl
    rw [hidx, hiter]
    rfl

/-- Two models with disjoint observed benchmarks: `m1` has only
`b1 = 4`, `m2` has only `b2 = 6`; post-index, `(m1, b2)` and `(m2, b1)`
are missing. -/
def disjointTable : RawTable :=
  ⟨[⟨"m1", [⟨"b1", some 4, none, none⟩]⟩,
    ⟨"m2", [⟨"b2", some 6, none, none⟩]⟩]⟩

/-- C3 counterexample.  With `iterations = 0` the combiner leaves the
missing cell `(m1, b2)` of `disjointTable` unfilled (`score = null` in
the output), although a single pass of `computeAllBenchmarks` — the
claimed "first-pass fill" — would fill it (with the degenerate pairwise
prediction 0, there being no doubly-observed pair): `iterations = 0`
does not return the first-pass fill. -/
theorem zero_iterations_leaves_missing_cells_unfilled :
    (((estimateMissingBenchmarks id disjointTable 0).models.getD 0
        ⟨"", []⟩).benchmarks.getD 1 ⟨"", none, "", 0⟩).score = none ∧
    ((((computeAllBenchmarks id
          (indexBenchmarkData id disjointTable)).modelFromName.lookup
        "m1").bind fun mo => mo.lookup "b2").map Bench.score) =
      some (some 0) := by
  constructor
  · rfl
  · simp [computeAllBenchmarks, newCell, estimateCell, predictorInfos,
      predictionFor, varianceFor, estStats, statsPairs,
      predictorScoreForStats, estimatorFor, estimatorPairs,
      calculateMeansByBenchmark, mean, cellScore, indexBenchmarkData,
      benchmarkNamesOf, modelNamesOf, entriesFor, mergeEntries, insertNew,
      disjointTable, List.lookup, List.filterMap, List.filter]
    norm_num

/-! ## Gaussian elimination, matrix inversion and the multivariate
trainer — `src/lib/score-prediction.js` (the version with uncertainty
estimation: `gaussianElimination` lines 189–225, `invertMatrix` lines
280–297, `trainModelForBenchmark` lines 96–183) -/

/-- `A[i][j]` (0 for an out-of-range read, which square inputs never
exercise). -/
def getA (A : List (List ℚ)) (i j : Nat) : ℚ := (A.getD i []).getD j 0

/-- The partial-pivot row for column `i`: scan `k = i+1 … n−1`, keeping
the row with the strictly largest `|A[k][i]|` (ties keep the earlier
row). -/
def pivotRow (A : List (List ℚ)) (i : Nat) : Nat :=
  (List.range' (i + 1) (A.length - (i + 1))).foldl
    (fun maxRow k => if |getA A maxRow i| < |getA A k i| then k else maxRow) i

/-- `[A[i], A[m]] = [A[m], A[i]]`: exchange two list entries. -/
def swapIdx {α : Type _} (l : List α) (i m : Nat) (d : α) : List α :=
  let vi := l.getD i d
  let vm := l.getD m d
  (l.set i vm).set m vi

/-- The inner elimination of one row `k > i`:
`for (j = i; j < n; j++) A[k][j] -= factor * A[i][j]` (columns below `i`
are untouched; for a square system the row length is the column
count). -/
def elimRow (piv : List ℚ) (i : Nat) (factor : ℚ) (row : List ℚ) :
    List ℚ :=
  row.mapIdx fun j v => if i ≤ j then v - factor * piv.getD j 0 else v

/-- The singularity threshold `1e-50`. -/
def pivotThreshold : ℚ := 1 / 10 ^ 50

/-- One step `i` of the forward phase: partial pivot, swap the rows of
`A` and the entries of `b`, return `null` when the pivot's magnitude is
below the threshold, otherwise eliminate the rows below the pivot (each
`factor` is read from the matrix before its row is modified, and rows do
not interact within a step, exactly as in the source loop). -/
def elimStep (Ab : List (List ℚ) × List ℚ) (i : Nat) :
    Option (List (List ℚ) × List ℚ) :=
  let m := pivotRow Ab.1 i
  let A1 := swapIdx Ab.1 i m []
  let b1 := swapIdx Ab.2 i m 0
  if |getA A1 i i| < pivotThreshold then none
  else
    let piv := A1.getD i []
    let pb := b1.getD i 0
    let aii := getA A1 i i
    some
      (A1.mapIdx fun k row =>
        if i < k then elimRow piv i (getA A1 k i / aii) row else row,
       b1.mapIdx fun k v =>
        if i < k then v - getA A1 k i / aii * pb else v)

/-- The first `i` steps of the forward phase. -/
def elimPartial (A : List (List ℚ)) (b : List ℚ) (i : Nat) :
    Option (List (List ℚ) × List ℚ) :=
  (List.range i).foldlM elimStep (A, b)

/-- The whole forward phase: steps `i = 0 … n−1`. -/
def forwardElim (A : List (List ℚ)) (b : List ℚ) :
    Option (List (List ℚ) × List ℚ) :=
  elimPartial A b A.length

/-- `Σ_{j > i} A[i][j]·x[j]` of the back-substitution step, where the
already-solved suffix `[x_{i+1}, …, x_{n−1}]` is `acc`. -/
def backSubstSum (A : List (List ℚ)) (i : Nat) (acc : List ℚ) : ℚ :=
  ∑ k ∈ Finset.range acc.length, getA A i (i + 1 + k) * acc.getD k 0

/-- Back substitution, solving rows `i−1, i−2, …, 0` onto the already
solved suffix `acc`:
`x[i] = (b[i] − Σ_{j>i} A[i][j]·x[j]) / A[i][i]`. -/
def backSubstAux (A : List (List ℚ)) (b : List ℚ) :
    Nat → List ℚ → List ℚ
  | 0, acc => acc
  | i + 1, acc =>
    backSubstAux A b i
      ((b.getD i 0 - backSubstSum A i acc) / getA A i i :: acc)

/-- The back-substitution phase. -/
def backSubst (A : List (List ℚ)) (b : List ℚ) : List ℚ :=
  backSubstAux A b A.length []

/-- `gaussianElimination(A, b)`: solve `Ax = b`, `null` on a pivot below
the `1e-50` threshold. -/
def gaussianElimination (A : List (List ℚ)) (b : List ℚ) :
    Option (List ℚ) :=
  (forwardElim A b).map fun Ab => backSubst Ab.1 Ab.2

/-- The standard basis vector used for column `col` of the inverse. -/
def identityColumn (n col : Nat) : List ℚ :=
  (List.range n).map fun i => if i = col then 1 else 0

/-- `invertMatrix(matrix)`: `null` for the empty matrix; otherwise `n`
independent solves against the standard basis vectors, `null` if any
solve is singular, assembling `inverse[i][col] = x_col[i]`. -/
def invertMatrix (matrix : List (List ℚ)) : Option (List (List ℚ)) :=
  let n := matrix.length
  if n = 0 then none
  else
    ((List.range n).mapM fun col =>
        gaussianElimination matrix (identityColumn n col)).map fun cols =>
      (List.range n).map fun i =>
        (List.range n).map fun col => (cols.getD col []).getD i 0

/-! ### Index-level lemmas for the elimination -/

theorem getD_set_self {α : Type _} (l : List α) (i : Nat) (a d : α)
    (h : i < l.length) : (l.set i a).getD i d = a := by
  simp [List.getD_eq_getElem?_getD, List.getElem?_set, h]

theorem getD_set_ne {α : Type _} (l : List α) {i j : Nat} (a : α) (d : α)
    (h : i ≠ j) : (l.set i a).getD j d = l.getD j d := by
  simp [List.getD_eq_getElem?_getD, List.getElem?_set, h]

theorem length_swapIdx {α : Type _} (l : List α) (i m : Nat) (d : α) :
    (swapIdx l i m d).length = l.length := by
  simp [swapIdx]

/-- Reading the swapped list: position `m` holds the old entry `i`,
position `i` the old entry `m`, all others are untouched.  (Consistent
when `i = m`.) -/
theorem getD_swapIdx {α : Type _} (l : List α) (i m r : Nat) (d : α)
    (hi : i < l.length) (hm : m < l.length) :
    (swapIdx l i m d).getD r d =
      if r = m then l.getD i d
      else if r = i then l.getD m d
      else l.getD r d := by
  unfold swapIdx
  by_cases h1 : r = m
  · subst h1
    rw [if_pos rfl, getD_set_self _ _ _ _ (by simpa using hm)]
  · rw [if_neg h1, getD_set_ne _ _ _ (fun hh => h1 hh.symm)]
    by_cases h2 : r = i
    · subst h2
      rw [if_pos rfl, getD_set_self _ _ _ _ hi]
    · rw [if_neg h2, getD_set_ne _ _ _ (fun hh => h2 hh.symm)]

theorem getD_mapIdx {α : Type _} (l : List α) (f : Nat → α → α) (k : Nat)
    (d : α) (h : k < l.length) :
    (l.mapIdx f).getD k d = f k (l.getD k d) := by
  rw [List.getD_eq_getElem?_getD, List.getElem?_mapIdx,
    List.getElem?_eq_getElem h]
  rw [List.getD_eq_getElem l d h]
  rfl

theorem length_elimRow (piv : List ℚ) (i : Nat) (factor : ℚ)
    (row : List ℚ) : (elimRow piv i factor row).length = row.length := by
  simp [elimRow]

theorem getD_elimRow (piv : List ℚ) (i : Nat) (factor : ℚ) (row : List ℚ)
    (j : Nat) (h : j < row.length) :
    (elimRow piv i factor row).getD j 0 =
      if i ≤ j then row.getD j 0 - factor * piv.getD j 0
      else row.getD j 0 := by
  rw [elimRow, getD_mapIdx _ _ _ _ h]

/-- A fold preserves a property when the step does so for members of the
folded list. -/
theorem foldl_preserves_mem {α β : Type _} (P : β → Prop) (f : β → α → β) :
    ∀ (xs : List α), (∀ b a, a ∈ xs → P b → P (f b a)) →
      ∀ acc, P acc → P (xs.foldl f acc) := by
  intro xs
  induction xs with
  | nil => intro _ acc h; exact h
  | cons x t ih =>
    intro hf acc h
    exact ih (fun b a ha hb => hf b a (List.mem_cons_of_mem x ha) hb)
      (f acc x) (hf acc x (List.mem_cons_self x t) h)

/-- The partial-pivot row is in `[i, n)`. -/
theorem pivotRow_bound (A : List (List ℚ)) (i : Nat) (h : i < A.length) :
    i ≤ pivotRow A i ∧ pivotRow A i < A.length := by
  unfold pivotRow
  apply foldl_preserves_mem (fun r => i ≤ r ∧ r < A.length)
  · intro b a ha hb
    rw [List.mem_range'_1] at ha
    split
    · exact ⟨Nat.le_of_succ_le ha.1, by omega⟩
    · exact hb
  · exact ⟨le_refl i, h⟩

/-- `x` solves the first `n` equations of the system `(A, b)`. -/
def solvesN (n : Nat) (A : List (List ℚ)) (b x : List ℚ) : Prop :=
  ∀ i, i < n →
    (∑ j ∈ Finset.range n, getA A i j * x.getD j 0) = b.getD i 0

/-- The invariant carried through the forward phase, relative to the
original system `(A₀, b₀)`: well-formed lengths, zeros below the
diagonal in the first `i` columns, nonzero diagonal in the first `i`
rows, and every solution of the current system solving the original
one. -/
structure ElimInv (n : Nat) (A₀ : List (List ℚ)) (b₀ : List ℚ) (i : Nat)
    (Ab : List (List ℚ) × List ℚ) : Prop where
  lenA : Ab.1.length = n
  lenRow : ∀ k, k < n → (Ab.1.getD k []).length = n
  lenB : Ab.2.length = n
  zlow : ∀ k j, j < i → j < k → getA Ab.1 k j = 0
  diag : ∀ k, k < i → getA Ab.1 k k ≠ 0
  sol : ∀ x, solvesN n Ab.1 Ab.2 x → solvesN n A₀ b₀ x


theorem getA_of_length_le (A : List (List ℚ)) (k j : Nat)
    (h : A.length ≤ k) : getA A k j = 0 := by
  simp [getA, List.getD_eq_getElem?_getD, List.getElem?_eq_none h]

theorem elimStep_inv {n : Nat} {A₀ : List (List ℚ)} {b₀ : List ℚ}
    {i : Nat} (hi : i < n) {Ab Ab' : List (List ℚ) × List ℚ}
    (hinv : ElimInv n A₀ b₀ i Ab) (hstep : elimStep Ab i = some Ab') :
    ElimInv n A₀ b₀ (i + 1) Ab' := by
  obtain ⟨lenA, lenRow, lenB, zlow, diag, sol⟩ := hinv
  obtain ⟨A2, b2⟩ := Ab'
  have hib : i < Ab.1.length := by rw [lenA]; exact hi
  simp only [elimStep] at hstep
  obtain ⟨him, hmlt⟩ := pivotRow_bound Ab.1 i hib
  set m := pivotRow Ab.1 i with hmdef
  have hmn : m < n := by rw [← lenA]; exact hmlt
  have hibb : i < Ab.2.length := by rw [lenB]; exact hi
  have hmbb : m < Ab.2.length := by rw [lenB]; exact hmn
  set A1 := swapIdx Ab.1 i m [] with hA1def
  set b1 := swapIdx Ab.2 i m 0 with hb1def
  have lenA1 : A1.length = n := by rw [hA1def, length_swapIdx, lenA]
  have lenb1 : b1.length = n := by rw [hb1def, length_swapIdx, lenB]
  have hrowA1 : ∀ k, A1.getD k [] =
      if k = m then Ab.1.getD i []
      else if k = i then Ab.1.getD m [] else Ab.1.getD k [] := by
    intro k
    rw [hA1def]
    exact getD_swapIdx Ab.1 i m k [] hib hmlt
  have hgA1 : ∀ k j, getA A1 k j =
      if k = m then getA Ab.1 i j
      else if k = i then getA Ab.1 m j else getA Ab.1 k j := by
    intro k j
    unfold getA
    rw [hrowA1 k]
    split
    · rfl
    · split <;> rfl
  have hgb1 : ∀ r, b1.getD r 0 =
      if r = m then Ab.2.getD i 0
      else if r = i then Ab.2.getD m 0 else Ab.2.getD r 0 := by
    intro r
    rw [hb1def]
    exact getD_swapIdx Ab.2 i m r 0 hibb hmbb
  have lenRow1 : ∀ k, k < n → (A1.getD k []).length = n := by
    intro k hk
    rw [hrowA1 k]
    split
    · exact lenRow i hi
    · split
      · exact lenRow m hmn
      · exact lenRow k hk
  split at hstep
  · exact Option.noConfusion hstep
  · rename_i hpiv
    rw [Option.some_inj, Prod.mk.injEq] at hstep
    obtain ⟨hA2, hb2⟩ := hstep
    have haii : getA A1 i i ≠ 0 := by
      intro h0
      apply hpiv
      rw [h0, abs_zero]
      norm_num [pivotThreshold]
    have hzA1 : ∀ k j, j < i → j < k → getA A1 k j = 0 := by
      intro k j hji hjk
      rw [hgA1]
      split
      · exact zlow i j hji hji
      · split
        · exact zlow m j hji (lt_of_lt_of_le hji him)
        · exact zlow k j hji hjk
    have hdA1 : ∀ k, k < i → getA A1 k k ≠ 0 := by
      intro k hk
      have hkm : k ≠ m := by omega
      have hki : k ≠ i := by omega
      rw [hgA1, if_neg hkm, if_neg hki]
      exact diag k hk
    have hz_i : ∀ j, j < i → getA A1 i j = 0 := fun j hj => hzA1 i j hj hj
    have lenA2 : A2.length = n := by rw [← hA2, List.length_mapIdx, lenA1]
    have lenb2 : b2.length = n := by rw [← hb2, List.length_mapIdx, lenb1]
    have hrowA2 : ∀ k, k < n → A2.getD k [] =
        if i < k then
          elimRow (A1.getD i []) i (getA A1 k i / getA A1 i i) (A1.getD k [])
        else A1.getD k [] := by
      intro k hk
      rw [← hA2, getD_mapIdx _ _ _ _ (by rw [lenA1]; exact hk)]
    have lenRow2 : ∀ k, k < n → (A2.getD k []).length = n := by
      intro k hk
      rw [hrowA2 k hk]
      split
      · rw [length_elimRow]; exact lenRow1 k hk
      · exact lenRow1 k hk
    have hgA2 : ∀ k j, k < n → j < n → getA A2 k j =
        if i < k then
          (if i ≤ j then getA A1 k j - getA A1 k i / getA A1 i i * getA A1 i j
           else getA A1 k j)
        else getA A1 k j := by
      intro k j hk hj
      unfold getA
      rw [hrowA2 k hk]
      by_cases hik : i < k
      · rw [if_pos hik, if_pos hik,
          getD_elimRow _ _ _ _ _ (by rw [lenRow1 k hk]; exact hj)]
        rfl
      · rw [if_neg hik, if_neg hik]
    have hgb2 : ∀ r, r < n → b2.getD r 0 =
        if i < r then b1.getD r 0 - getA A1 r i / getA A1 i i * b1.getD i 0
        else b1.getD r 0 := by
      intro r hr
      rw [← hb2, getD_mapIdx _ _ _ _ (by rw [lenb1]; exact hr)]
    refine ⟨lenA2, lenRow2, lenb2, ?_, ?_, ?_⟩
    · intro k j hj hjk
      by_cases hkn : k < n
      · have hjn : j < n := lt_trans hjk hkn
        rw [hgA2 k j hkn hjn]
        by_cases hji : j < i
        · by_cases hik : i < k
          · rw [if_pos hik, if_neg (by omega : ¬ i ≤ j)]
            exact hzA1 k j hji hjk
          · rw [if_neg hik]
            exact hzA1 k j hji hjk
        · have hji' : j = i := by omega
          subst hji'
          rw [if_pos hjk, if_pos (le_refl j), div_mul_cancel₀ _ haii]
          exact sub_self _
      · push_neg at hkn
        exact getA_of_length_le A2 k j (by rw [lenA2]; exact hkn)
    · intro k hk
      have hkn : k < n := by omega
      rw [hgA2 k k hkn hkn]
      by_cases hki : k = i
      · subst hki
        rw [if_neg (lt_irrefl k)]
        exact haii
      · have hkii : k < i := by omega
        rw [if_neg (by omega : ¬ i < k)]
        exact hdA1 k hkii
    · intro x hx
      apply sol
      have heqi : (∑ j ∈ Finset.range n, getA A1 i j * x.getD j 0) =
          b1.getD i 0 := by
        have h0 := hx i hi
        rw [Finset.sum_congr rfl fun j hj => by
            rw [hgA2 i j hi (Finset.mem_range.1 hj), if_neg (lt_irrefl i)]] at h0
        rw [hgb2 i hi, if_neg (lt_irrefl i)] at h0
        exact h0
      have hs1 : solvesN n A1 b1 x := by
        intro r hr
        by_cases hir : i < r
        · have h0 := hx r hr
          have hterm : ∀ j ∈ Finset.range n, getA A2 r j * x.getD j 0 =
              getA A1 r j * x.getD j 0 -
                getA A1 r i / getA A1 i i * (getA A1 i j * x.getD j 0) := by
            intro j hj
            have hjn := Finset.mem_range.1 hj
            rw [hgA2 r j hr hjn, if_pos hir]
            by_cases hij : i ≤ j
            · rw [if_pos hij]; ring
            · rw [if_neg hij, hz_i j (by omega)]
              ring
          rw [Finset.sum_congr rfl hterm, Finset.sum_sub_distrib,
            ← Finset.mul_sum, heqi, hgb2 r hr, if_pos hir] at h0
          linarith
        · have h0 := hx r hr
          rw [Finset.sum_congr rfl fun j hj => by
              rw [hgA2 r j hr (Finset.mem_range.1 hj), if_neg hir]] at h0
          rw [hgb2 r hr, if_neg hir] at h0
          exact h0
      have hAm : ∀ j, getA Ab.1 m j = getA A1 i j := by
        intro j
        rw [hgA1]
        by_cases him' : i = m
        · rw [if_pos him', him']
        · rw [if_neg him', if_pos rfl]
      have hAi : ∀ j, getA Ab.1 i j = getA A1 m j := by
        intro j
        rw [hgA1, if_pos rfl]
      have hbm : Ab.2.getD m 0 = b1.getD i 0 := by
        rw [hgb1]
        by_cases him' : i = m
        · rw [if_pos him', him']
        · rw [if_neg him', if_pos rfl]
      have hbi : Ab.2.getD i 0 = b1.getD m 0 := by
        rw [hgb1, if_pos rfl]
      intro r hr
      by_cases hri : r = i
      · subst hri
        rw [Finset.sum_congr rfl fun j _ => by rw [hAi j]]
        rw [hs1 m hmn]
        exact hbi.symm
      · by_cases hrm : r = m
        · subst hrm
          rw [Finset.sum_congr rfl fun j _ => by rw [hAm j]]
          rw [hs1 i hi]
          exact hbm.symm
        · have hAo : ∀ j, getA Ab.1 r j = getA A1 r j := by
            intro j
            rw [hgA1, if_neg hrm, if_neg hri]
          have hbo : Ab.2.getD r 0 = b1.getD r 0 := by
            rw [hgb1, if_neg hrm, if_neg hri]
          rw [Finset.sum_congr rfl fun j _ => by rw [hAo j]]
          rw [hs1 r hr]
          exact hbo.symm


theorem elimPartial_inv (n : Nat) (A : List (List ℚ)) (b : List ℚ)
    (hA : A.length = n) (hrow : ∀ k, k < n → (A.getD k []).length = n)
    (hb : b.length = n) :
    ∀ i, i ≤ n → ∀ Ab', elimPartial A b i = some Ab' →
      ElimInv n A b i Ab' := by
  intro i
  induction i with
  | zero =>
    intro _ Ab' h
    have he : Ab' = (A, b) := by
      simpa [elimPartial] using h.symm
    subst he
    exact ⟨hA, hrow, hb, fun k j hj _ => absurd hj (Nat.not_lt_zero j),
      fun k hk => absurd hk (Nat.not_lt_zero k), fun x hx => hx⟩
  | succ i ih =>
    intro hin Ab' h
    rw [elimPartial, List.range_succ, List.foldlM_append] at h
    cases hE : (List.range i).foldlM elimStep (A, b) with
    | none =>
      rw [hE] at h
      simp at h
    | some Ab1 =>
      rw [hE] at h
      simp only [List.foldlM_cons, List.foldlM_nil] at h
      simp at h
      exact elimStep_inv (by omega) (ih (by omega) Ab1 hE) h

theorem elimPartial_none_mono (A : List (List ℚ)) (b : List ℚ) (j : Nat)
    (h : elimPartial A b j = none) :
    ∀ k, elimPartial A b (j + k) = none := by
  intro k
  induction k with
  | zero => exact h
  | succ k ih =>
    rw [show j + (k + 1) = (j + k) + 1 from rfl, elimPartial,
      List.range_succ, List.foldlM_append]
    rw [show (List.range (j + k)).foldlM elimStep (A, b) = none from ih]
    rfl

theorem backSubstAux_solves (n : Nat) (U : List (List ℚ)) (c : List ℚ)
    (hzlow : ∀ k j, j < n → j < k → getA U k j = 0)
    (hdiag : ∀ k, k < n → getA U k k ≠ 0) :
    ∀ i, i ≤ n → ∀ acc, acc.length = n - i →
      (∀ r, i ≤ r → r < n →
        (∑ k ∈ Finset.range (n - i), getA U r (i + k) * acc.getD k 0) =
          c.getD r 0) →
      (backSubstAux U c i acc).length = n ∧
        solvesN n U c (backSubstAux U c i acc) := by
  intro i
  induction i with
  | zero =>
    intro _ acc hlen hsat
    rw [backSubstAux]
    constructor
    · simpa using hlen
    · intro r hr
      have h0 := hsat r (Nat.zero_le r) hr
      simpa using h0
  | succ i ih =>
    intro hin acc hlen hsat
    have hi : i < n := by omega
    rw [backSubstAux]
    refine ih (by omega) _ ?_ ?_
    · simp only [List.length_cons, hlen]
      omega
    · intro r hir hrn
      have hs : n - i = (n - (i + 1)) + 1 := by omega
      rw [hs, Finset.sum_range_succ']
      have hterm : ∀ k ∈ Finset.range (n - (i + 1)),
          getA U r (i + (k + 1)) *
              ((c.getD i 0 - backSubstSum U i acc) / getA U i i ::
                acc).getD (k + 1) 0 =
            getA U r (i + 1 + k) * acc.getD k 0 := by
        intro k _
        rw [List.getD_cons_succ]
        have harith : i + (k + 1) = i + 1 + k := by omega
        rw [harith]
      rw [Finset.sum_congr rfl hterm]
      simp only [Nat.add_zero, List.getD_cons_zero]
      by_cases hri : r = i
      · subst hri
        have hSsum : (∑ k ∈ Finset.range (n - (r + 1)),
            getA U r (r + 1 + k) * acc.getD k 0) = backSubstSum U r acc := by
          rw [backSubstSum, hlen]
        rw [hSsum, mul_comm (getA U r r), div_mul_cancel₀ _ (hdiag r hrn)]
        ring
      · have hir' : i + 1 ≤ r := by omega
        rw [hzlow r i hi (by omega), mul_comm, mul_zero, add_zero]
        exact hsat r hir' hrn

theorem gaussianElimination_solves (n : Nat) (A : List (List ℚ))
    (b : List ℚ) (hA : A.length = n)
    (hrow : ∀ k, k < n → (A.getD k []).length = n) (hb : b.length = n)
    (x : List ℚ) (hx : gaussianElimination A b = some x) :
    x.length = n ∧ solvesN n A b x := by
  rw [gaussianElimination] at hx
  cases hF : forwardElim A b with
  | none => rw [hF] at hx; exact Option.noConfusion hx
  | some Uc =>
    rw [hF, Option.map_some', Option.some_inj] at hx
    have hF' : elimPartial A b n = some Uc := by
      rw [← hA]
      exact hF
    obtain ⟨lenU, lenRowU, lenC, zlowU, diagU, solU⟩ :=
      elimPartial_inv n A b hA hrow hb n (le_refl n) Uc hF'
    have hmain := backSubstAux_solves n Uc.1 Uc.2 zlowU diagU n (le_refl n) []
      (by simp) (fun r h1 h2 => absurd h2 (by omega))
    subst hx
    rw [backSubst, lenU]
    exact ⟨hmain.1, solU _ hmain.2⟩


theorem invertMatrix_two (M : List (List ℚ)) (hM : M.length = 2)
    (c0 c1 : List ℚ)
    (h0 : gaussianElimination M (identityColumn 2 0) = some c0)
    (h1 : gaussianElimination M (identityColumn 2 1) = some c1) :
    invertMatrix M =
      some [[c0.getD 0 0, c1.getD 0 0], [c0.getD 1 0, c1.getD 1 0]] := by
  simp only [invertMatrix, hM]
  rw [show List.range 2 = [0, 1] from rfl]
  simp only [List.mapM_cons, List.mapM_nil, h0, h1]
  simp [List.range_succ]

theorem invertMatrix_two_none (M : List (List ℚ)) (hM : M.length = 2)
    (h0 : gaussianElimination M (identityColumn 2 0) = none) :
    invertMatrix M = none := by
  simp only [invertMatrix, hM]
  rw [show List.range 2 = [0, 1] from rfl]
  simp only [List.mapM_cons, List.mapM_nil, h0]
  simp

theorem invertMatrix_one_none (M : List (List ℚ)) (hM : M.length = 1)
    (h0 : gaussianElimination M (identityColumn 1 0) = none) :
    invertMatrix M = none := by
  simp only [invertMatrix, hM]
  rw [show List.range 1 = [0] from rfl]
  simp only [List.mapM_cons, List.mapM_nil, h0]
  simp




theorem forwardElim_two (A A1 A2 : List (List ℚ)) (b b1 b2 : List ℚ)
    (hA : A.length = 2)
    (h0 : elimStep (A, b) 0 = some (A1, b1))
    (h1 : elimStep (A1, b1) 1 = some (A2, b2)) :
    forwardElim A b = some (A2, b2) := by
  rw [forwardElim, hA, elimPartial, show List.range 2 = [0, 1] from rfl]
  simp [h0, h1]

theorem forwardElim_two_none (A A1 : List (List ℚ)) (b b1 : List ℚ)
    (hA : A.length = 2)
    (h0 : elimStep (A, b) 0 = some (A1, b1))
    (h1 : elimStep (A1, b1) 1 = none) :
    forwardElim A b = none := by
  rw [forwardElim, hA, elimPartial, show List.range 2 = [0, 1] from rfl]
  simp [h0, h1]

theorem forwardElim_one_none (A : List (List ℚ)) (b : List ℚ)
    (hA : A.length = 1) (h0 : elimStep (A, b) 0 = none) :
    forwardElim A b = none := by
  rw [forwardElim, hA, elimPartial, show List.range 1 = [0] from rfl]
  simp [h0]

theorem gaussianElimination_of_forwardElim (A U : List (List ℚ))
    (b c x : List ℚ) (h : forwardElim A b = some (U, c))
    (hx : backSubst U c = x) :
    gaussianElimination A b = some x := by
  rw [gaussianElimination, h, Option.map_some', hx]

theorem gaussianElimination_none_of_forwardElim (A : List (List ℚ))
    (b : List ℚ) (h : forwardElim A b = none) :
    gaussianElimination A b = none := by
  rw [gaussianElimination, h]
  rfl

theorem ge_one_one_singular :
    gaussianElimination ([[1,1],[1,1]] : List (List ℚ)) [2,2] = none := by
  apply gaussianElimination_none_of_forwardElim
  apply forwardElim_two_none [[1,1],[1,1]] [[1,1],[0,0]] [2,2] [2,0] rfl
  · norm_num [elimStep, pivotRow, swapIdx, getA, elimRow, pivotThreshold,
      List.range', List.mapIdx_cons, List.mapIdx_nil, abs_eq_max_neg, max_def]
  · norm_num [elimStep, pivotRow, swapIdx, getA, elimRow, pivotThreshold,
      List.range', List.mapIdx_cons, List.mapIdx_nil, abs_eq_max_neg, max_def]

theorem inv_one_one_singular :
    invertMatrix ([[1,1],[1,1]] : List (List ℚ)) = none := by
  apply invertMatrix_two_none [[1,1],[1,1]] rfl
  apply gaussianElimination_none_of_forwardElim
  apply forwardElim_two_none [[1,1],[1,1]] [[1,1],[0,0]] (identityColumn 2 0)
    [1,-1] rfl
  · rw [show identityColumn 2 0 = [1, 0] from rfl]
    norm_num [elimStep, pivotRow, swapIdx, getA, elimRow, pivotThreshold,
      List.range', List.mapIdx_cons, List.mapIdx_nil, abs_eq_max_neg, max_def]
  · norm_num [elimStep, pivotRow, swapIdx, getA, elimRow, pivotThreshold,
      List.range', List.mapIdx_cons, List.mapIdx_nil, abs_eq_max_neg, max_def]

theorem inv_tiny_singular :
    invertMatrix ([[1/10^60]] : List (List ℚ)) = none := by
  apply invertMatrix_one_none [[1/10^60]] rfl
  apply gaussianElimination_none_of_forwardElim
  apply forwardElim_one_none [[1/10^60]] (identityColumn 1 0) rfl
  rw [show identityColumn 1 0 = [1] from rfl]
  norm_num [elimStep, pivotRow, swapIdx, getA, elimRow, pivotThreshold,
    List.range', List.mapIdx_cons, List.mapIdx_nil, abs_eq_max_neg, max_def]

theorem inv_example :
    invertMatrix ([[1,2],[3,4]] : List (List ℚ)) =
      some [[-2, 1], [3/2, -1/2]] := by
  have h0 : gaussianElimination ([[1,2],[3,4]] : List (List ℚ))
      (identityColumn 2 0) = some [-2, 3/2] := by
    rw [show identityColumn 2 0 = [1, 0] from rfl]
    apply gaussianElimination_of_forwardElim _ [[3,4],[0,2/3]] _ [0,1]
    · apply forwardElim_two [[1,2],[3,4]] [[3,4],[0,2/3]] [[3,4],[0,2/3]]
        [1,0] [0,1] [0,1] rfl
      · norm_num [elimStep, pivotRow, swapIdx, getA, elimRow, pivotThreshold,
          List.range', List.mapIdx_cons, List.mapIdx_nil, abs_eq_max_neg,
          max_def]
      · norm_num [elimStep, pivotRow, swapIdx, getA, elimRow, pivotThreshold,
          List.range', List.mapIdx_cons, List.mapIdx_nil, abs_eq_max_neg,
          max_def]
    · norm_num [backSubst, backSubstAux, backSubstSum, getA,
        Finset.sum_range_succ]
  have h1 : gaussianElimination ([[1,2],[3,4]] : List (List ℚ))
      (identityColumn 2 1) = some [1, -1/2] := by
    rw [show identityColumn 2 1 = [0, 1] from rfl]
    apply gaussianElimination_of_forwardElim _ [[3,4],[0,2/3]] _ [1,-1/3]
    · apply forwardElim_two [[1,2],[3,4]] [[3,4],[0,2/3]] [[3,4],[0,2/3]]
        [0,1] [1,-1/3] [1,-1/3] rfl
      · norm_num [elimStep, pivotRow, swapIdx, getA, elimRow, pivotThreshold,
          List.range', List.mapIdx_cons, List.mapIdx_nil, abs_eq_max_neg,
          max_def]
      · norm_num [elimStep, pivotRow, swapIdx, getA, elimRow, pivotThreshold,
          List.range', List.mapIdx_cons, List.mapIdx_nil, abs_eq_max_neg,
          max_def]
    · norm_num [backSubst, backSubstAux, backSubstSum, getA,
        Finset.sum_range_succ]
  have := invertMatrix_two ([[1,2],[3,4]] : List (List ℚ)) rfl _ _ h0 h1
  rw [this]
  norm_num


/-- The result record of `trainModelForBenchmark` (coefficients as an
association list in feature order). -/
structure TrainResult where
  coefficients : List (String × ℚ)
  bias : ℚ
  residualVariance : ℚ
  covMatrix : Option (List (List ℚ))
  featureBenches : List String
  deriving DecidableEq

/-- `benchmarks.benchmarkNames.filter(b => b !== bench)`. -/
def featuresOf (d : IndexedData) (bench : String) : List String :=
  d.benchmarkNames.filter fun b => b != bench

/-- The design matrix: one row per model, the feature scores in feature
order (a `null` score coerces to 0 in the products where it is used). -/
def designX (d : IndexedData) (features : List String) : List (List ℚ) :=
  d.modelFromName.map fun m =>
    features.map fun b => (((m.2.lookup b).bind Bench.score).getD 0)

/-- The target vector `y`: the modelled benchmark's score per model. -/
def targetVector (d : IndexedData) (bench : String) : List ℚ :=
  d.modelFromName.map fun m =>
    (((m.2.lookup bench).bind Bench.score).getD 0)

/-- `X_with_bias`: each row extended with the constant regressor 1. -/
def designXb (X : List (List ℚ)) : List (List ℚ) :=
  X.map fun row => row ++ [1]

/-- The normal matrix `XtX[j][k] = Σ_i xi[j]·xi[k]` accumulated by the
source's symmetric double loop. -/
def trainXtX (nf : Nat) (Xb : List (List ℚ)) : List (List ℚ) :=
  (List.range nf).map fun j => (List.range nf).map fun k =>
    (Xb.map fun xi => xi.getD j 0 * xi.getD k 0).sum

/-- `Xty[j] = Σ_i xi[j]·y[i]`. -/
def trainXty (nf : Nat) (Xb : List (List ℚ)) (y : List ℚ) : List ℚ :=
  (List.range nf).map fun j =>
    ((Xb.zip y).map fun p => p.1.getD j 0 * p.2).sum

/-- `trainModelForBenchmark(benchmarks, bench)`: guards for no features
and no rows, the normal equations solved by `gaussianElimination`, the
singular fallback (zero coefficients, `bias = mean(y)`), and otherwise
coefficients, bias, residual variance (the `denominator > 0` test is on
the exact integer `|X| − (p+1)`) and the covariance matrix
`σ²·(XᵀX)⁻¹`. -/
def trainModelForBenchmark (d : IndexedData) (bench : String) :
    TrainResult :=
  let featureBenches := featuresOf d bench
  if featureBenches.length = 0 then ⟨[], 0, 0, none, []⟩
  else
    let X := designX d featureBenches
    let y := targetVector d bench
    if X.length = 0 then ⟨[], 0, 0, none, featureBenches⟩
    else
      let Xb := designXb X
      let nf := featureBenches.length + 1
      let XtX := trainXtX nf Xb
      let Xty := trainXty nf Xb y
      match gaussianElimination XtX Xty with
      | none =>
        ⟨featureBenches.map fun b => (b, 0), y.sum / (y.length : ℚ), 0,
          none, featureBenches⟩
      | some beta =>
        let coefficients := featureBenches.mapIdx fun i b =>
          (b, beta.getD i 0)
        let bias := beta.getD featureBenches.length 0
        let ssr := ((Xb.zip y).map fun p =>
          let pred := bias + ((List.range featureBenches.length).map
            fun j => beta.getD j 0 * p.1.getD j 0).sum
          let residual := p.2 - pred
          residual * residual).sum
        let residualVariance :=
          if (0 : Int) < (X.length : Int) - (nf : Int) then
            max 0 (ssr / ((X.length : ℚ) - (nf : ℚ)))
          else 0
        let covMatrix := (invertMatrix XtX).map fun inv =>
          inv.map fun row => row.map fun v => v * residualVariance
        ⟨coefficients, bias, residualVariance, covMatrix, featureBenches⟩

/-- **C6** For the example system `[[1,1],[1,1]]·x = [2,2]` the solver
returns the `null` sentinel (the embedding is total, so no exception is
possible); in general, whenever the forward phase reaches a step `i`
whose partial pivot has magnitude below the fixed `1e-50` threshold the
solver returns `null`; and in the singular case the trainer returns a
zero coefficient for every feature and `bias = mean(y)`. -/
theorem gaussianElimination_singular_returns_null_and_trainer_falls_back :
    gaussianElimination ([[1,1],[1,1]] : List (List ℚ)) [2,2] = none ∧
    (∀ (A : List (List ℚ)) (b : List ℚ) (i : Nat)
        (Ab1 : List (List ℚ) × List ℚ),
      elimPartial A b i = some Ab1 → i < A.length →
      |getA (swapIdx Ab1.1 i (pivotRow Ab1.1 i) []) i i| < pivotThreshold →
      gaussianElimination A b = none) ∧
    (∀ (d : IndexedData) (bench : String),
      featuresOf d bench ≠ [] →
      designX d (featuresOf d bench) ≠ [] →
      gaussianElimination
        (trainXtX ((featuresOf d bench).length + 1)
          (designXb (designX d (featuresOf d bench))))
        (trainXty ((featuresOf d bench).length + 1)
          (designXb (designX d (featuresOf d bench)))
          (targetVector d bench)) = none →
      trainModelForBenchmark d bench =
        ⟨(featuresOf d bench).map fun b => (b, 0),
          (targetVector d bench).sum / ((targetVector d bench).length : ℚ),
          0, none, featuresOf d bench⟩) := by
  refine ⟨ge_one_one_singular, ?_, ?_⟩
  · intro A b i Ab1 hpart hi hpiv
    have hstep : elimStep Ab1 i = none := by
      simp only [elimStep]
      rw [if_pos hpiv]
    have hpart1 : elimPartial A b (i + 1) = none := by
      rw [elimPartial, List.range_succ, List.foldlM_append]
      rw [show (List.range i).foldlM elimStep (A, b) = some Ab1 from hpart]
      simp [hstep]
    have hfull := elimPartial_none_mono A b (i + 1) hpart1 (A.length - (i + 1))
    rw [show (i + 1) + (A.length - (i + 1)) = A.length from by omega] at hfull
    exact gaussianElimination_none_of_forwardElim A b hfull
  · intro d bench hne hX hsing
    simp only [trainModelForBenchmark]
    rw [if_neg (fun hh => hne (List.length_eq_zero.1 hh)),
      if_neg (fun hh => hX (List.length_eq_zero.1 hh)), hsing]

/-- A two-benchmark table whose single feature column is constant, so
the normal matrix is singular. -/
def singularTrainTable : IndexedData :=
  ⟨["bA", "bB"],
    [("mA", [obsCell "bA" 1, obsCell "bB" 3]),
     ("mB", [obsCell "bA" 1, obsCell "bB" 5])]⟩

/-- On `singularTrainTable` the fit of `bB` against the constant feature
`bA` is singular: the trainer returns coefficient 0 for `bA` and
`bias = mean([3, 5]) = 4`. -/
theorem gaussianElimination_singular_returns_null_and_trainer_falls_back_witness :
    trainModelForBenchmark singularTrainTable "bB" =
      ⟨[("bA", 0)], 4, 0, none, ["bA"]⟩ := by
  have hf : featuresOf singularTrainTable "bB" = ["bA"] := rfl
  have hXeq : designX singularTrainTable ["bA"] = [[1], [1]] := rfl
  have hyeq : targetVector singularTrainTable "bB" = [3, 5] := rfl
  have hXtX : trainXtX 2 (designXb [[1], [1]]) = [[2,2],[2,2]] := by
    norm_num [trainXtX, designXb, List.range_succ]
  have hXty : trainXty 2 (designXb [[1], [1]]) [3, 5] = [8, 8] := by
    norm_num [trainXty, designXb, List.range_succ]
  have hsing : gaussianElimination
      (trainXtX ((featuresOf singularTrainTable "bB").length + 1)
        (designXb (designX singularTrainTable
          (featuresOf singularTrainTable "bB"))))
      (trainXty ((featuresOf singularTrainTable "bB").length + 1)
        (designXb (designX singularTrainTable
          (featuresOf singularTrainTable "bB")))
        (targetVector singularTrainTable "bB")) = none := by
    rw [hf, hXeq, hyeq,
      show (["bA"] : List String).length + 1 = 2 from rfl, hXtX, hXty]
    apply gaussianElimination_none_of_forwardElim
    apply forwardElim_two_none [[2,2],[2,2]] [[2,2],[0,0]] [8,8] [8,0] rfl
    · norm_num [elimStep, pivotRow, swapIdx, getA, elimRow, pivotThreshold,
        List.range', List.mapIdx_cons, List.mapIdx_nil, abs_eq_max_neg,
        max_def]
    · norm_num [elimStep, pivotRow, swapIdx, getA, elimRow, pivotThreshold,
        List.range', List.mapIdx_cons, List.mapIdx_nil, abs_eq_max_neg,
        max_def]
  have h :=
    gaussianElimination_singular_returns_null_and_trainer_falls_back.2.2
      singularTrainTable "bB"
      (by rw [hf]; exact List.cons_ne_nil _ _)
      (by rw [hf, hXeq]; exact List.cons_ne_nil _ _) hsing
  rw [h, hf, hyeq]
  norm_num


/-- The square matrix read off a list-of-rows (out-of-range entries 0). -/
def toMat (n : Nat) (L : List (List ℚ)) : Matrix (Fin n) (Fin n) ℚ :=
  Matrix.of fun i j => getA L i j

theorem getD_map_range {β : Type _} (f : Nat → β) (n k : Nat) (d : β)
    (h : k < n) : ((List.range n).map f).getD k d = f k := by
  rw [List.getD_eq_getElem?_getD, List.getElem?_map, List.getElem?_range h]
  rfl

theorem length_identityColumn (n col : Nat) :
    (identityColumn n col).length = n := by
  simp [identityColumn]

theorem mapM_range'_eval (f : Nat → Option (List ℚ)) :
    ∀ (n s : Nat) (ys : List (List ℚ)),
      (List.range' s n).mapM f = some ys →
      ys.length = n ∧ ∀ k, k < n → f (s + k) = some (ys.getD k []) := by
  intro n
  induction n with
  | zero =>
    intro s ys h
    rw [List.range'_zero, List.mapM_nil] at h
    have he : ys = [] := by simpa using h.symm
    subst he
    exact ⟨rfl, fun k hk => absurd hk (Nat.not_lt_zero k)⟩
  | succ n ih =>
    intro s ys h
    rw [List.range'_succ, List.mapM_cons] at h
    cases hfs : f s with
    | none => rw [hfs] at h; simp at h
    | some y0 =>
      rw [hfs] at h
      cases hrest : (List.range' (s + 1) n).mapM f with
      | none => rw [hrest] at h; simp at h
      | some ys' =>
        rw [hrest] at h
        simp at h
        subst h
        obtain ⟨hlen, hval⟩ := ih (s + 1) ys' hrest
        refine ⟨by simp [hlen], ?_⟩
        intro k hk
        cases k with
        | zero => simpa using hfs
        | succ k =>
          rw [List.getD_cons_succ]
          rw [show s + (k + 1) = (s + 1) + k from by omega]
          exact hval k (by omega)

theorem mapM_range_eval (f : Nat → Option (List ℚ)) (n : Nat)
    (ys : List (List ℚ)) (h : (List.range n).mapM f = some ys) :
    ys.length = n ∧ ∀ k, k < n → f k = some (ys.getD k []) := by
  rw [List.range_eq_range'] at h
  obtain ⟨h1, h2⟩ := mapM_range'_eval f n 0 ys h
  exact ⟨h1, fun k hk => by simpa using h2 k hk⟩

/-- **C7** Whenever `invertMatrix` succeeds on a square matrix, the
result is an exact two-sided inverse; and `invertMatrix([[1,1],[1,1]])`
is the `null` singular sentinel. -/
theorem invertMatrix_round_trip :
    (∀ (n : Nat) (M Inv : List (List ℚ)), M.length = n →
      (∀ k, k < n → (M.getD k []).length = n) →
      invertMatrix M = some Inv →
      toMat n M * toMat n Inv = 1 ∧ toMat n Inv * toMat n M = 1) ∧
    invertMatrix ([[1,1],[1,1]] : List (List ℚ)) = none := by
  constructor
  · intro n M Inv hM hrow hInv
    simp only [invertMatrix] at hInv
    rw [hM] at hInv
    by_cases hn0 : n = 0
    · rw [if_pos hn0] at hInv
      exact Option.noConfusion hInv
    · rw [if_neg hn0] at hInv
      cases hmm : (List.range n).mapM
          (fun col => gaussianElimination M (identityColumn n col)) with
      | none =>
        rw [hmm] at hInv
        exact Option.noConfusion hInv
      | some cols =>
        rw [hmm, Option.map_some', Option.some_inj] at hInv
        obtain ⟨hclen, hcval⟩ := mapM_range_eval _ n cols hmm
        have hsolve : ∀ col, col < n →
            (cols.getD col []).length = n ∧
              solvesN n M (identityColumn n col) (cols.getD col []) :=
          fun col hcol =>
            gaussianElimination_solves n M (identityColumn n col) hM hrow
              (length_identityColumn n col) _ (hcval col hcol)
        have hgetInv : ∀ k j, k < n → j < n →
            getA Inv k j = (cols.getD j []).getD k 0 := by
          intro k j hk hj
          rw [← hInv]
          unfold getA
          rw [getD_map_range _ n k [] hk, getD_map_range _ n j 0 hj]
        have hMI : toMat n M * toMat n Inv = 1 := by
          ext i j
          rw [Matrix.mul_apply, Matrix.one_apply]
          have hterm : ∀ k : Fin n, toMat n M i k * toMat n Inv k j =
              getA M i.val k.val * (cols.getD j.val []).getD k.val 0 := by
            intro k
            show getA M i.val k.val * getA Inv k.val j.val = _
            rw [hgetInv k.val j.val k.isLt j.isLt]
          rw [Finset.sum_congr rfl fun k _ => hterm k]
          rw [Fin.sum_univ_eq_sum_range
            (fun k => getA M i.val k * (cols.getD j.val []).getD k 0) n]
          rw [(hsolve j.val j.isLt).2 i.val i.isLt]
          rw [identityColumn, getD_map_range _ n i.val 0 i.isLt]
          by_cases hij : i = j
          · rw [if_pos (by rw [hij]), if_pos hij]
          · rw [if_neg (fun hh => hij (Fin.ext hh)), if_neg hij]
        exact ⟨hMI, Matrix.mul_eq_one_comm.1 hMI⟩
  · exact inv_one_one_singular

/-- The matrix `[[1e-60]]` is invertible (its exact inverse is
`[[1e60]]`), yet `invertMatrix` rejects it through the `1e-50` pivot
threshold — so the round trip does not hold for every invertible
matrix. -/
theorem invertible_matrix_rejected_by_pivot_threshold :
    invertMatrix ([[1/10^60]] : List (List ℚ)) = none ∧
    toMat 1 [[1/10^60]] * toMat 1 [[10^60]] = 1 := by
  refine ⟨inv_tiny_singular, ?_⟩
  ext i j
  fin_cases i
  fin_cases j
  simp [Matrix.mul_apply, Matrix.one_apply, toMat, getA]

/-- The round trip at `M = [[1,2],[3,4]]`: `invertMatrix` succeeds and
the returned matrix is the exact inverse. -/
theorem invertMatrix_round_trip_witness :
    invertMatrix ([[1,2],[3,4]] : List (List ℚ)) =
      some [[-2, 1], [3/2, -1/2]] ∧
    toMat 2 [[1,2],[3,4]] * toMat 2 [[-2, 1], [3/2, -1/2]] = 1 := by
  refine ⟨inv_example, ?_⟩
  exact (invertMatrix_round_trip.1 2 [[1,2],[3,4]] [[-2, 1], [3/2, -1/2]]
    rfl (by intro k hk; interval_cases k <;> rfl) inv_example).1

end Metabench
